import Mathlib

/-!
IPv4 range validators of vyos-1x (`src/validators-go`)

Two Go programs validate a range expression `first-second`:

* `ipv4-range/ipv4-range.go` (the netip program), built on `net/netip`;
* `ipv4-range-go.go` (the legacy program), built on `net` and `math/big`.

A Go string is a sequence of bytes; it is embedded as a `List Char`, one
character per byte.  The Go standard library functions the programs call
(`strings.Split`, `strings.Contains`, `netip.ParseAddr`, `netip.Addr.Less`,
`net.ParseIP`, `net.IP.To4`, `big.Int.SetBytes`, `big.Int.Int64`) are embedded
from the Go sources, each under the name it has there.
-/

set_option autoImplicit false

/-- A Go string: a sequence of bytes, one `Char` per byte. -/
abbrev GoString := List Char

/-! ## Package `strings` -/

namespace strings

/-- Go `strings.Contains(s, sep)` for a one-byte separator. -/
def Contains (s : GoString) (sep : Char) : Bool :=
  s.any (fun c => c == sep)

/-- The loop of Go `genSplit`: `cur` is the part of the current token that
precedes the next separator, found by scanning (`Index`). -/
def splitLoop (sep : Char) : GoString → GoString → List GoString
  | cur, [] => [cur]
  | cur, c :: cs =>
    if c = sep then cur :: splitLoop sep [] cs else splitLoop sep (cur ++ [c]) cs

/-- Go `strings.Split(s, sep)` for a one-byte separator: all the substrings
of `s` between separators (one more than the number of separators). -/
def Split (s : GoString) (sep : Char) : List GoString :=
  splitLoop sep [] s

end strings

/-! ## Package `net/netip` -/

namespace netip

/-- The `z` field of `netip.Addr`: `z0` for the zero `Addr`, `z4` for an
IPv4 address, `z6 zone` for an IPv6 address (`z6noz` is `z6 []`). -/
inductive Zone
  | z0
  | z4
  | z6 (zone : GoString)
  deriving DecidableEq, Repr

/-- Go `netip.Addr`: a 128-bit value in two 64-bit halves and the family
marker `z`. -/
structure Addr where
  hi : Nat
  lo : Nat
  z : Zone
  deriving DecidableEq, Repr

/-- Go `Addr.Is4`. -/
def Addr.Is4 (ip : Addr) : Bool :=
  ip.z == Zone.z4

/-- Go `Addr.Is6`. -/
def Addr.Is6 (ip : Addr) : Bool :=
  ip.z != Zone.z0 && ip.z != Zone.z4

/-- Go `Addr.Zone`. -/
def Addr.Zone (ip : Addr) : GoString :=
  match ip.z with
  | Zone.z6 zone => zone
  | _ => []

/-- Go `Addr.BitLen`. -/
def Addr.BitLen (ip : Addr) : Nat :=
  match ip.z with
  | Zone.z0 => 0
  | Zone.z4 => 32
  | Zone.z6 _ => 128

/-- Byte-wise order of Go strings (`za < zb`). -/
def strLt : GoString → GoString → Bool
  | [], [] => false
  | [], _ :: _ => true
  | _ :: _, [] => false
  | a :: as, b :: bs =>
    if a.toNat < b.toNat then true
    else if b.toNat < a.toNat then false
    else strLt as bs

/-- Go `Addr.Compare`. -/
def Addr.Compare (ip ip2 : Addr) : Int :=
  let f1 := ip.BitLen
  let f2 := ip2.BitLen
  if f1 < f2 then -1
  else if f1 > f2 then 1
  else if ip.hi < ip2.hi then -1
  else if ip.hi > ip2.hi then 1
  else if ip.lo < ip2.lo then -1
  else if ip.lo > ip2.lo then 1
  else if ip.Is6 then
    if strLt ip.Zone ip2.Zone then -1
    else if strLt ip2.Zone ip.Zone then 1
    else 0
  else 0

/-- Go `Addr.Less`. -/
def Addr.Less (ip ip2 : Addr) : Bool :=
  ip.Compare ip2 == -1

/-- Go `AddrFrom4`: the IPv4 address of four bytes, stored IPv4-mapped. -/
def AddrFrom4 (a : List Nat) : Addr :=
  { hi := 0
    lo := 0xffff00000000 ||| (a.getD 0 0 % 256) <<< 24 ||| (a.getD 1 0 % 256) <<< 16
            ||| (a.getD 2 0 % 256) <<< 8 ||| (a.getD 3 0 % 256)
    z := Zone.z4 }

/-- Big-endian value of a byte sequence (`byteorder.BeUint64`, also
`big.Int.SetBytes`). -/
def beValue (bs : List Nat) : Nat :=
  bs.foldl (fun acc b => acc * 256 + b % 256) 0

/-- Go `AddrFrom16`. -/
def AddrFrom16 (a : List Nat) : Addr :=
  { hi := beValue (a.take 8), lo := beValue ((a.drop 8).take 8), z := Zone.z6 [] }

/-- Go `Addr.WithZone`. -/
def Addr.WithZone (ip : Addr) (zone : GoString) : Addr :=
  if !ip.Is6 then ip else { ip with z := Zone.z6 zone }

/-- Big-endian bytes of a 64-bit value (`byteorder.BePutUint64`). -/
def bePutUint64 (v : Nat) : List Nat :=
  [v >>> 56 % 256, v >>> 48 % 256, v >>> 40 % 256, v >>> 32 % 256,
   v >>> 24 % 256, v >>> 16 % 256, v >>> 8 % 256, v % 256]

/-- Go `Addr.As16`. -/
def Addr.As16 (ip : Addr) : List Nat :=
  bePutUint64 ip.hi ++ bePutUint64 ip.lo

/-- Go `appendDecimal`: the decimal digits of a byte, without leading zeros. -/
def appendDecimal (b : GoString) (x : Nat) : GoString :=
  let b1 := if x ≥ 100 then b ++ [Char.ofNat (48 + x / 100)] else b
  let b2 := if x ≥ 10 then b1 ++ [Char.ofNat (48 + x / 10 % 10)] else b1
  b2 ++ [Char.ofNat (48 + x % 10)]

/-- Go `Addr.As4` of an IPv4 (or IPv4-mapped) address: the four low bytes. -/
def Addr.As4 (ip : Addr) : List Nat :=
  [ip.lo >>> 24 % 256, ip.lo >>> 16 % 256, ip.lo >>> 8 % 256, ip.lo % 256]

/-- Go `Addr.string4`: the dotted-quad text of an IPv4 address. -/
def Addr.string4 (ip : Addr) : GoString :=
  let b0 := appendDecimal [] (ip.As4.getD 0 0)
  let b1 := appendDecimal (b0 ++ ['.']) (ip.As4.getD 1 0)
  let b2 := appendDecimal (b1 ++ ['.']) (ip.As4.getD 2 0)
  appendDecimal (b2 ++ ['.']) (ip.As4.getD 3 0)

/-- The loop variables of Go `parseIPv4Fields`. -/
structure V4State where
  val : Nat
  pos : Nat
  digLen : Nat
  fields : List Nat
  deriving DecidableEq, Repr

/-- The `for i := 0; i < len(s); i++` loop of Go `parseIPv4Fields`; the
third argument is `s[i:]`. -/
def parseIPv4Loop (s : GoString) : Nat → GoString → V4State → Except String V4State
  | _, [], st => .ok st
  | i, c :: rest, st =>
    if '0' ≤ c ∧ c ≤ '9' then
      if st.digLen = 1 ∧ st.val = 0 then
        .error "IPv4 field has octet with leading zero"
      else
        let val := st.val * 10 + c.toNat - '0'.toNat
        if val > 255 then
          .error "IPv4 field has value >255"
        else
          parseIPv4Loop s (i + 1) rest { st with val := val, digLen := st.digLen + 1 }
    else if c = '.' then
      if i = 0 ∨ i = s.length - 1 ∨ s.getD (i - 1) ' ' = '.' then
        .error "IPv4 field must have at least one digit"
      else if st.pos = 3 then
        .error "IPv4 address too long"
      else
        parseIPv4Loop s (i + 1) rest
          { fields := st.fields.set st.pos (st.val % 256), pos := st.pos + 1,
            val := 0, digLen := 0 }
    else
      .error "unexpected character"

/-- Go `parseIPv4Fields` on the substring `s = in[off:end]`; returns the
four fields it fills. -/
def parseIPv4Fields (s : GoString) : Except String (List Nat) :=
  match parseIPv4Loop s 0 s { val := 0, pos := 0, digLen := 0, fields := [0, 0, 0, 0] } with
  | .error e => .error e
  | .ok st =>
    if st.pos < 3 then .error "IPv4 address too short"
    else .ok (st.fields.set 3 (st.val % 256))

/-- Go `parseIPv4`. -/
def parseIPv4 (s : GoString) : Except String Addr :=
  match parseIPv4Fields s with
  | .error e => .error e
  | .ok fields => .ok (AddrFrom4 fields)

/-- The value of the hex digit `c`, if it is one (the three digit cases of
the hex-number loop of Go `parseIPv6`). -/
def hexDigit (c : Char) : Option Nat :=
  if '0' ≤ c ∧ c ≤ '9' then some (c.toNat - '0'.toNat)
  else if 'a' ≤ c ∧ c ≤ 'f' then some (c.toNat - 'a'.toNat + 10)
  else if 'A' ≤ c ∧ c ≤ 'F' then some (c.toNat - 'A'.toNat + 10)
  else none

/-- The hex-number loop of Go `parseIPv6`: reads hex digits of `s` from
offset `off` (the first argument is `s[off:]`) into the `uint32` `acc`;
returns the final `off` and `acc`. -/
def parseHexLoop : GoString → Nat → Nat → Except String (Nat × Nat)
  | [], off, acc => .ok (off, acc)
  | c :: rest, off, acc =>
    match hexDigit c with
    | none => .ok (off, acc)
    | some d =>
      let acc := ((acc <<< 4) + d) % 2 ^ 32
      if off > 3 then .error "each group must have 4 or less digits"
      else if acc > 65535 then .error "IPv6 field has value >=2^16"
      else parseHexLoop rest (off + 1) acc

/-- The loop variables of Go `parseIPv6`: the rest `s` of the input, the
bytes `ip`, the write position `i` and the position `ellipsis` of `::`
(`none` for `-1`). -/
structure V6State where
  s : GoString
  ip : List Nat
  i : Nat
  ellipsis : Option Nat
  deriving DecidableEq, Repr

/-- One iteration of the `for i < 16` loop of Go `parseIPv6`: the loop
variables after it, and whether the loop goes on (`true`) or is left by
`break` (`false`). -/
def parseIPv6Step (st : V6State) : Except String (V6State × Bool) :=
  match parseHexLoop st.s 0 0 with
  | .error e => .error e
  | .ok (off, acc) =>
    if off = 0 then
      .error "each colon-separated field must have at least one digit"
    else if off < st.s.length ∧ st.s.getD off ' ' = '.' then
      if st.ellipsis = none ∧ st.i ≠ 12 then
        .error "embedded IPv4 address must replace the final 2 fields of the address"
      else if st.i + 4 > 16 then
        .error "too many hex fields to fit an embedded IPv4 at the end of the address"
      else
        match parseIPv4Fields st.s with
        | .error e => .error e
        | .ok fields =>
          .ok ({ st with s := [], i := st.i + 4,
                         ip := st.ip.take st.i ++ fields ++ st.ip.drop (st.i + 4) }, false)
    else
      let ip := (st.ip.set st.i (acc >>> 8 % 256)).set (st.i + 1) (acc % 256)
      let i := st.i + 2
      let s := st.s.drop off
      if s.length = 0 then
        .ok ({ st with s := s, ip := ip, i := i }, false)
      else if s.getD 0 ' ' ≠ ':' then
        .error "unexpected character, want colon"
      else if s.length = 1 then
        .error "colon must be followed by more characters"
      else
        let s := s.drop 1
        if s.getD 0 ' ' = ':' then
          if st.ellipsis ≠ none then
            .error "multiple :: in address"
          else
            let s := s.drop 1
            if s.length = 0 then
              .ok ({ s := s, ip := ip, i := i, ellipsis := some i }, false)
            else
              .ok ({ s := s, ip := ip, i := i, ellipsis := some i }, true)
        else
          .ok ({ st with s := s, ip := ip, i := i }, true)

/-- The `for i < 16` loop of Go `parseIPv6`.  Every iteration that does not
leave the loop adds 2 to `i`, so 8 iterations are enough; the first argument
counts them down. -/
def parseIPv6Loop : Nat → V6State → Except String V6State
  | 0, st => .ok st
  | k + 1, st =>
    if st.i < 16 then
      match parseIPv6Step st with
      | .error e => .error e
      | .ok (st1, true) => parseIPv6Loop k st1
      | .ok (st1, false) => .ok st1
    else
      .ok st

/-- Go `parseIPv6`. -/
def parseIPv6 (input : GoString) : Except String Addr :=
  let i := input.indexOf '%'
  if i ≠ input.length ∧ input.drop (i + 1) = [] then
    .error "zone must be a non-empty string"
  else
    let s := input.take i
    let zone := input.drop (i + 1)
    let lead := s.length ≥ 2 ∧ s.getD 0 ' ' = ':' ∧ s.getD 1 ' ' = ':'
    if lead ∧ (s.drop 2).length = 0 then
      .ok (Addr.WithZone { hi := 0, lo := 0, z := Zone.z6 [] } zone)
    else
      let st0 : V6State :=
        { s := if lead then s.drop 2 else s
          ip := List.replicate 16 0
          i := 0
          ellipsis := if lead then some 0 else none }
      match parseIPv6Loop 8 st0 with
      | .error e => .error e
      | .ok st =>
        if st.s.length ≠ 0 then
          .error "trailing garbage after address"
        else if st.i < 16 then
          match st.ellipsis with
          | none => .error "address string too short"
          | some e =>
            let n := 16 - st.i
            let ip := st.ip.take e ++ List.replicate n 0 ++ (st.ip.drop e).take (st.i - e)
            .ok (Addr.WithZone (AddrFrom16 ip) zone)
        else if st.ellipsis ≠ none then
          .error "the :: must expand to at least one field of zeros"
        else
          .ok (Addr.WithZone (AddrFrom16 st.ip) zone)

/-- The scan of Go `ParseAddr` for the first `.`, `:` or `%` of `s`; the
first argument is `s[i:]`. -/
def parseAddrScan (s : GoString) : GoString → Except String Addr
  | [] => .error "unable to parse IP"
  | c :: rest =>
    if c = '.' then parseIPv4 s
    else if c = ':' then parseIPv6 s
    else if c = '%' then .error "missing IPv6 address"
    else parseAddrScan s rest

/-- Go `netip.ParseAddr`. -/
def ParseAddr (s : GoString) : Except String Addr :=
  parseAddrScan s s

end netip

/-! ## Packages `net` and `math/big` -/

namespace net

/-- Go `net.IP`: a byte slice, `none` for `nil`. -/
abbrev IP := Option (List Nat)

/-- Go `net.ParseIP`: `netip.ParseAddr` without zone, as 16 bytes. -/
def ParseIP (s : GoString) : IP :=
  match netip.ParseAddr s with
  | .error _ => none
  | .ok ip => if ip.Zone ≠ [] then none else some ip.As16

/-- Go `IP.To4`. -/
def IP.To4 (ip : IP) : IP :=
  match ip with
  | none => none
  | some b =>
    if b.length = 4 then some b
    else if b.length = 16 ∧ (b.take 10).all (fun x => x == 0)
        ∧ b.getD 10 0 = 0xff ∧ b.getD 11 0 = 0xff then
      some ((b.drop 12).take 4)
    else none

end net

namespace big

/-- Go `(*big.Int).SetBytes` on a fresh `big.NewInt(0)`: the big-endian
unsigned value of the bytes (`nil` gives 0). -/
def SetBytes (buf : net.IP) : Nat :=
  match buf with
  | none => 0
  | some b => netip.beValue b

/-- Go `(*big.Int).Int64` of a non-negative value: its low 64 bits read as a
signed integer. -/
def Int64 (x : Nat) : Int :=
  let w : Nat := x % 2 ^ 64
  if w < 2 ^ 63 then (w : Int) else (w : Int) - 2 ^ 64

end big

/-! ## Process outcomes -/

/-- How a run of a program ends: `os.Exit(code)` (a return from `main` is
`exit 0`), or a run-time panic, on which the Go runtime ends the process with
status 2. -/
inductive Status
  | exit (code : Nat)
  | panic
  deriving DecidableEq, Repr

/-- The exit status of the process. -/
def Status.code : Status → Nat
  | .exit c => c
  | .panic => 2

/-- The `%s` operand of a `fmt.Printf` call. -/
inductive FmtArg
  | err (msg : String)
  | addr (a : netip.Addr)
  deriving DecidableEq, Repr

/-- One call of `fmt.Printf` / `fmt.Println`: the literal text of the call
and its `%s` operand, if any. -/
structure Printed where
  text : String
  arg : Option FmtArg
  deriving DecidableEq, Repr

/-- A finished run: what was written to standard output, and how it ended. -/
structure Run where
  out : List Printed
  status : Status
  deriving DecidableEq, Repr

/-! ## The netip program, `ipv4-range/ipv4-range.go` -/

namespace Ipv4Range

/-- Go `ParseIP` of `ipv4-range.go`: the address, or (`.error`) the message
printed before `os.Exit(1)`. -/
def ParseIP (addr : GoString) : Except Printed netip.Addr :=
  match netip.ParseAddr addr with
  | .error err =>
    .error { text := "The argument cannot be parsed as an IP address: %s", arg := some (.err err) }
  | .ok netip_addr =>
    if !netip_addr.Is4 then
      .error { text := "The address is not an IPv4: %s", arg := some (.addr netip_addr) }
    else
      .ok netip_addr

/-- Go `main` of `ipv4-range.go`; `osArgs` is `os.Args` (program name
first). -/
def main (osArgs : List GoString) : Run :=
  if osArgs.length ≠ 2 then
    { out := [{ text := "There must be one argument provided\n", arg := none }], status := .exit 1 }
  else
    match osArgs.get? 1 with
    | none => { out := [], status := .panic }
    | some args =>
      let iprange := strings.Split args '-'
      if iprange.length < 2 then
        { out := [{ text := "An argument must contain an IPv4 range\n", arg := none }],
          status := .exit 1 }
      else
        match iprange.get? 0, iprange.get? 1 with
        | some t0, some t1 =>
          match ParseIP t0 with
          | .error p => { out := [p], status := .exit 1 }
          | .ok ip_first =>
            match ParseIP t1 with
            | .error p => { out := [p], status := .exit 1 }
            | .ok ip_second =>
              if !ip_first.Less ip_second then
                { out := [], status := .exit 1 }
              else
                { out := [], status := .exit 0 }
        | _, _ => { out := [], status := .panic }

end Ipv4Range

/-! ## The legacy program, `ipv4-range-go.go` -/

namespace Ipv4RangeGo

/-- Go `IP4toInt` of `ipv4-range-go.go`. -/
def IP4toInt (IPv4Address : net.IP) : Int :=
  big.Int64 (big.SetBytes IPv4Address.To4)

/-- Go `IsIPv4` of `ipv4-range-go.go`. -/
def IsIPv4 (ip : GoString) : Bool :=
  if net.ParseIP ip = none then false else true

/-- The `for _, host := range lines` loop of `main`: `true` when it runs to
its end, `false` when it ends in `os.Exit(1)`. -/
def hostsLoop : List GoString → Bool
  | [] => true
  | host :: rest => if IsIPv4 host == false then false else hostsLoop rest

/-- Go `main` of `ipv4-range-go.go`, after `hosts` was initialised. -/
def mainBody (hosts : GoString) : Status :=
  let dash := strings.Contains hosts '-'
  if dash == false then .exit 1
  else
    let lines := strings.Split hosts '-'
    match lines.get? 0, lines.get? 1 with
    | some first, some second =>
      let dec_first := IP4toInt (net.ParseIP first)
      let dec_second := IP4toInt (net.ParseIP second)
      if dec_first ≥ dec_second then .exit 1
      else if hostsLoop lines then .exit 0
      else .exit 1
    | _, _ => .panic

/-- The legacy program: the package-level `hosts = os.Args[1]` runs before
`main`, and indexing past the end of `os.Args` panics. -/
def main (osArgs : List GoString) : Status :=
  match osArgs.get? 1 with
  | none => .panic
  | some hosts => mainBody hosts

end Ipv4RangeGo

/-! ## The notions of the specification -/

namespace Spec

/-- A decimal digit. -/
def isDigit (c : Char) : Bool :=
  decide ('0' ≤ c ∧ c ≤ '9')

/-- The number a string of decimal digits denotes. -/
def decVal (g : GoString) : Nat :=
  g.foldl (fun acc c => acc * 10 + (c.toNat - 48)) 0

/-- No leading zero: a single character, or a first character other than
`0`. -/
def noLeadingZero (g : GoString) : Bool :=
  decide (g.length ≤ 1) || g.head? != some '0'

/-- What may stand at the start of a decimal octet: decimal digits without
leading zero that denote a number in 0..255 (the empty string included). -/
def isOctetPrefix (g : GoString) : Bool :=
  g.all isDigit && noLeadingZero g && decide (decVal g ≤ 255)

/-- A decimal octet: a non-empty string of decimal digits without leading
zero that denotes a number in 0..255. -/
def isOctet (g : GoString) : Bool :=
  !g.isEmpty && isOctetPrefix g

/-- A valid dotted-quad: four dot-separated decimal octets. -/
def isDottedQuad (s : GoString) : Bool :=
  match strings.Split s '.' with
  | [a, b, c, d] => isOctet a && isOctet b && isOctet c && isOctet d
  | _ => false

/-- The four octet values of a dotted-quad. -/
def octets (s : GoString) : List Nat :=
  (strings.Split s '.').map decVal

/-- The unsigned 32-bit integer of four octets,
`o0 * 2^24 + o1 * 2^16 + o2 * 2^8 + o3`. -/
def toUint32 (o : List Nat) : Nat :=
  o.getD 0 0 * 2 ^ 24 + o.getD 1 0 * 2 ^ 16 + o.getD 2 0 * 2 ^ 8 + o.getD 3 0

/-- The unsigned 32-bit integer a dotted-quad denotes. -/
def value (s : GoString) : Nat :=
  toUint32 (octets s)

/-- The four octets of an unsigned 32-bit integer, most significant first. -/
def fromUint32 (n : Nat) : List Nat :=
  [n / 2 ^ 24 % 256, n / 2 ^ 16 % 256, n / 2 ^ 8 % 256, n % 256]

/-- A dotted sequence of decimal numbers (non-empty strings of decimal
digits with dots between them) of which at least one is above 255. -/
def hasOctetAbove255 (t : GoString) : Bool :=
  (strings.Split t '.').all (fun g => !g.isEmpty && g.all isDigit)
    && (strings.Split t '.').any (fun g => decide (255 < decVal g))

/-- Lexicographic order of octet tuples: the first octet that differs
decides. -/
def lexLt : List Nat → List Nat → Bool
  | [], [] => false
  | [], _ :: _ => true
  | _ :: _, [] => false
  | x :: xs, y :: ys => if x < y then true else if y < x then false else lexLt xs ys

/-- A run wrote a non-empty message: one of its print calls has non-empty
text. -/
def wroteMessage (r : Run) : Bool :=
  r.out.any (fun p => p.text != "")

/-- Four octets, each below 256. -/
def isOctets (o : List Nat) : Prop :=
  ∃ a b c d, o = [a, b, c, d] ∧ a < 256 ∧ b < 256 ∧ c < 256 ∧ d < 256

/-- The form of a dotted-quad: four octets `g0`, `g1`, `g2`, `g3` with dots
between them. -/
def quad (g0 g1 g2 g3 : GoString) : GoString :=
  g0 ++ '.' :: (g1 ++ '.' :: (g2 ++ '.' :: g3))

end Spec


/-! ## Characters and digits -/

theorem char_le_iff (a b : Char) : a ≤ b ↔ a.toNat ≤ b.toNat := Iff.rfl

theorem char_eq_of_toNat_eq {a b : Char} (h : a.toNat = b.toNat) : a = b := by
  rw [← Char.ofNat_toNat a, ← Char.ofNat_toNat b, h]

theorem isDigit_iff (c : Char) : Spec.isDigit c = true ↔ 48 ≤ c.toNat ∧ c.toNat ≤ 57 := by
  simp [Spec.isDigit, char_le_iff]

theorem digit_cond_iff (c : Char) : ('0' ≤ c ∧ c ≤ '9') ↔ Spec.isDigit c = true := by
  simp [Spec.isDigit]

theorem isDigit_ne_dot {c : Char} (h : Spec.isDigit c = true) : c ≠ '.' := by
  rintro rfl
  revert h
  decide

theorem isDigit_ne_dash {c : Char} (h : Spec.isDigit c = true) : c ≠ '-' := by
  rintro rfl
  revert h
  decide

theorem eq_zero_char_of_digit {c : Char} (h : Spec.isDigit c = true) (h0 : c.toNat - 48 = 0) :
    c = '0' := by
  rw [isDigit_iff] at h
  apply char_eq_of_toNat_eq
  show c.toNat = 48
  omega

theorem decVal_nil : Spec.decVal [] = 0 := rfl

theorem decVal_concat (g : GoString) (c : Char) :
    Spec.decVal (g ++ [c]) = Spec.decVal g * 10 + (c.toNat - 48) := by
  simp [Spec.decVal, List.foldl_append]

theorem isOctetPrefix_nil : Spec.isOctetPrefix [] = true := rfl

theorem isOctetPrefix_iff (g : GoString) :
    Spec.isOctetPrefix g = true ↔
      (∀ c ∈ g, Spec.isDigit c = true) ∧ Spec.noLeadingZero g = true ∧ Spec.decVal g ≤ 255 := by
  simp [Spec.isOctetPrefix, and_assoc]

theorem noLeadingZero_concat (cur : GoString) (c : Char) :
    Spec.noLeadingZero (cur ++ [c]) = true ↔ Spec.noLeadingZero cur = true ∧ cur ≠ ['0'] := by
  match cur with
  | [] => simp [Spec.noLeadingZero]
  | [a] => simp [Spec.noLeadingZero]
  | a :: b :: t => simp [Spec.noLeadingZero]

theorem single_zero_iff (cur : GoString) (h : ∀ c ∈ cur, Spec.isDigit c = true) :
    (cur.length = 1 ∧ Spec.decVal cur = 0) ↔ cur = ['0'] := by
  constructor
  · rintro ⟨hl, hz⟩
    match cur, hl with
    | [a], _ =>
      have ha := h a (by simp)
      have : a = '0' := eq_zero_char_of_digit ha (by simpa [Spec.decVal] using hz)
      rw [this]
  · rintro rfl
    exact ⟨rfl, rfl⟩

theorem isOctetPrefix_concat (cur : GoString) (c : Char) (hc : Spec.isDigit c = true) :
    Spec.isOctetPrefix (cur ++ [c]) = true ↔
      Spec.isOctetPrefix cur = true ∧ ¬ (cur.length = 1 ∧ Spec.decVal cur = 0)
        ∧ Spec.decVal cur * 10 + (c.toNat - 48) ≤ 255 := by
  rw [isOctetPrefix_iff, isOctetPrefix_iff, decVal_concat, noLeadingZero_concat]
  constructor
  · rintro ⟨hd, ⟨hn, hz⟩, hle⟩
    have hd' : ∀ x ∈ cur, Spec.isDigit x = true := fun x hx => hd x (by simp [hx])
    refine ⟨⟨hd', hn, by omega⟩, ?_, hle⟩
    rw [single_zero_iff cur hd']
    exact hz
  · rintro ⟨⟨hd, hn, -⟩, hz, hle⟩
    rw [single_zero_iff cur hd] at hz
    refine ⟨?_, ⟨hn, hz⟩, hle⟩
    intro x hx
    rcases List.mem_append.1 hx with hx | hx
    · exact hd x hx
    · rw [List.mem_singleton.1 hx]
      exact hc

theorem isOctetPrefix_digits {g : GoString} (h : Spec.isOctetPrefix g = true) :
    ∀ c ∈ g, Spec.isDigit c = true :=
  ((isOctetPrefix_iff g).1 h).1

theorem getD_append_mid (a b : GoString) (x d : Char) : (a ++ x :: b).getD a.length d = x := by
  rw [List.getD_append_right _ _ _ _ (le_refl _)]
  simp

/-! ## The IPv4 field loop -/

/-- The guard of the `.` case of `parseIPv4Loop`, when the index stands right
after the digits `cur` of the current field. -/
theorem dot_guard_iff (p0 cur r : GoString) (hp : p0 = [] ∨ ∃ q, p0 = q ++ ['.'])
    (hcur : ∀ c ∈ cur, Spec.isDigit c = true) :
    (p0.length + cur.length = 0
        ∨ p0.length + cur.length = (p0 ++ (cur ++ '.' :: r)).length - 1
        ∨ (p0 ++ (cur ++ '.' :: r)).getD (p0.length + cur.length - 1) ' ' = '.')
      ↔ (cur = [] ∨ r = []) := by
  constructor
  · rintro (h | h | h)
    · left
      exact List.length_eq_zero.1 (by omega)
    · right
      simp only [List.length_append, List.length_cons] at h
      exact List.length_eq_zero.1 (by omega)
    · rcases List.eq_nil_or_concat cur with hc | ⟨cur1, x, hc⟩
      · exact Or.inl hc
      · exfalso
        subst hc
        have hx : Spec.isDigit x = true := hcur x (by simp)
        have e1 : p0 ++ (cur1.concat x ++ '.' :: r) = (p0 ++ cur1) ++ x :: ('.' :: r) := by simp
        have e2 : p0.length + (cur1.concat x).length - 1 = (p0 ++ cur1).length := by simp
        rw [e1, e2, getD_append_mid] at h
        exact isDigit_ne_dot hx h
  · rintro (h | h)
    · subst h
      rcases hp with hp | ⟨q, hp⟩
      · left
        simp [hp]
      · right
        right
        subst hp
        have e1 : q ++ ['.'] ++ ([] ++ '.' :: r) = q ++ '.' :: ('.' :: r) := by simp
        have e2 : (q ++ ['.']).length + ([] : GoString).length - 1 = q.length := by simp
        rw [e1, e2, getD_append_mid]
    · subst h
      right
      left
      simp

/-- Reading one field: if the loop, standing inside a field of which it has
read the digits `cur`, ends well, then the rest of the field is a string of
digits `ds`, `cur ++ ds` is the start of an octet, and either the input ends
there or a `.` follows, with a non-empty field before and more input after. -/
theorem parseIPv4Loop_field (s : GoString) :
    ∀ (rest p0 cur : GoString) (i : Nat) (st st1 : netip.V4State),
      s = p0 ++ (cur ++ rest) → i = p0.length + cur.length →
      (p0 = [] ∨ ∃ q, p0 = q ++ ['.']) →
      Spec.isOctetPrefix cur = true → st.val = Spec.decVal cur → st.digLen = cur.length →
      netip.parseIPv4Loop s i rest st = .ok st1 →
      ∃ ds, Spec.isOctetPrefix (cur ++ ds) = true ∧
        ((rest = ds ∧ st1 = { st with val := Spec.decVal (cur ++ ds),
                                      digLen := (cur ++ ds).length }) ∨
         (∃ r, rest = ds ++ '.' :: r ∧ cur ++ ds ≠ [] ∧ r ≠ [] ∧ st.pos ≠ 3 ∧
            netip.parseIPv4Loop s (i + ds.length + 1) r
              { fields := st.fields.set st.pos (Spec.decVal (cur ++ ds) % 256),
                pos := st.pos + 1, val := 0, digLen := 0 } = .ok st1)) := by
  intro rest
  induction rest with
  | nil =>
    intro p0 cur i st st1 _ _ _ hcur hval hlen h
    refine ⟨[], by simpa using hcur, Or.inl ⟨rfl, ?_⟩⟩
    simp only [netip.parseIPv4Loop, Except.ok.injEq] at h
    subst h
    cases st
    simp_all
  | cons c rest ih =>
    intro p0 cur i st st1 hs hi hp hcur hval hlen h
    rw [netip.parseIPv4Loop] at h
    by_cases hd : '0' ≤ c ∧ c ≤ '9'
    · rw [if_pos hd] at h
      have hdig : Spec.isDigit c = true := (digit_cond_iff c).1 hd
      have h48 := (isDigit_iff c).1 hdig
      by_cases hz : st.digLen = 1 ∧ st.val = 0
      · rw [if_pos hz] at h
        cases h
      · rw [if_neg hz] at h
        have hv : st.val * 10 + c.toNat - '0'.toNat = Spec.decVal (cur ++ [c]) := by
          rw [decVal_concat, hval]
          show _ - 48 = _
          omega
        simp only [hv] at h
        by_cases hgt : Spec.decVal (cur ++ [c]) > 255
        · rw [if_pos hgt] at h
          cases h
        · rw [if_neg hgt] at h
          have hpre : Spec.isOctetPrefix (cur ++ [c]) = true := by
            rw [isOctetPrefix_concat cur c hdig]
            refine ⟨hcur, ?_, ?_⟩
            · rw [← hval, ← hlen]
              exact hz
            · rw [decVal_concat] at hgt
              omega
          obtain ⟨ds, hds, hcase⟩ := ih p0 (cur ++ [c]) (i + 1)
            { st with val := Spec.decVal (cur ++ [c]), digLen := st.digLen + 1 } st1
            (by simp [hs]) (by simp [hi]; omega) hp hpre rfl (by simp [hlen]) h
          refine ⟨c :: ds, by simpa using hds, ?_⟩
          rcases hcase with ⟨hr, hst⟩ | ⟨r, hr, hne, hrne, hpos, hloop⟩
          · left
            refine ⟨by rw [hr], ?_⟩
            simpa using hst
          · right
            refine ⟨r, by rw [hr]; simp, by simp, hrne, hpos, ?_⟩
            have e : i + (c :: ds).length + 1 = i + 1 + ds.length + 1 := by
              simp only [List.length_cons]
              omega
            rw [e]
            simpa using hloop
    · rw [if_neg hd] at h
      by_cases hdot : c = '.'
      · rw [if_pos hdot] at h
        subst hdot
        have hg := dot_guard_iff p0 cur rest hp (isOctetPrefix_digits hcur)
        rw [← hs, ← hi] at hg
        by_cases hguard : i = 0 ∨ i = s.length - 1 ∨ s.getD (i - 1) ' ' = '.'
        · rw [if_pos hguard] at h
          cases h
        · rw [if_neg hguard] at h
          rw [hg] at hguard
          push_neg at hguard
          by_cases hpos : st.pos = 3
          · rw [if_pos hpos] at h
            cases h
          · rw [if_neg hpos] at h
            refine ⟨[], by simpa using hcur, Or.inr ⟨rest, rfl, by simpa using hguard.1,
              hguard.2, hpos, ?_⟩⟩
            simpa [hval] using h
      · rw [if_neg hdot] at h
        cases h

theorem isOctet_iff (g : GoString) :
    Spec.isOctet g = true ↔ g ≠ [] ∧ Spec.isOctetPrefix g = true := by
  cases g <;> simp [Spec.isOctet]

theorem isOctet_le {g : GoString} (h : Spec.isOctet g = true) : Spec.decVal g ≤ 255 :=
  ((isOctetPrefix_iff g).1 ((isOctet_iff g).1 h).2).2.2

theorem isOctet_digits {g : GoString} (h : Spec.isOctet g = true) :
    ∀ c ∈ g, Spec.isDigit c = true :=
  isOctetPrefix_digits ((isOctet_iff g).1 h).2

theorem isOctetPrefix_of_append (a : GoString) :
    ∀ b : GoString, Spec.isOctetPrefix (a ++ b) = true → Spec.isOctetPrefix a = true := by
  intro b
  induction b using List.reverseRecOn with
  | nil => simp
  | append_singleton b c ih =>
    intro h
    rw [← List.append_assoc] at h
    have hc : Spec.isDigit c = true := isOctetPrefix_digits h c (by simp)
    exact ih ((isOctetPrefix_concat (a ++ b) c hc).1 h).1

/-- Reading the digits of a field: on digits `ds` that continue the start
`cur` of an octet, the loop only updates `val` and `digLen`. -/
theorem parseIPv4Loop_digits (s : GoString) :
    ∀ (ds cur rest : GoString) (i : Nat) (st : netip.V4State),
      Spec.isOctetPrefix (cur ++ ds) = true → st.val = Spec.decVal cur →
      st.digLen = cur.length →
      netip.parseIPv4Loop s i (ds ++ rest) st =
        netip.parseIPv4Loop s (i + ds.length) rest
          { st with val := Spec.decVal (cur ++ ds), digLen := (cur ++ ds).length } := by
  intro ds
  induction ds with
  | nil =>
    intro cur rest i st _ hval hlen
    cases st
    simp_all
  | cons c ds ih =>
    intro cur rest i st hpre hval hlen
    have hpre2 : Spec.isOctetPrefix ((cur ++ [c]) ++ ds) = true := by simpa using hpre
    have hpre1 : Spec.isOctetPrefix (cur ++ [c]) = true := isOctetPrefix_of_append _ _ hpre2
    have hdig : Spec.isDigit c = true := isOctetPrefix_digits hpre1 c (by simp)
    have h48 := (isDigit_iff c).1 hdig
    have hstep := (isOctetPrefix_concat cur c hdig).1 hpre1
    have hv : st.val * 10 + c.toNat - '0'.toNat = Spec.decVal (cur ++ [c]) := by
      rw [decVal_concat, hval]
      show _ - 48 = _
      omega
    have hz : ¬ (st.digLen = 1 ∧ st.val = 0) := by
      rw [hval, hlen]
      exact hstep.2.1
    have hgt : ¬ Spec.decVal (cur ++ [c]) > 255 := by
      rw [decVal_concat]
      omega
    rw [List.cons_append, netip.parseIPv4Loop, if_pos ((digit_cond_iff c).2 hdig), if_neg hz]
    simp only [hv]
    rw [if_neg hgt]
    rw [ih (cur ++ [c]) rest (i + 1) _ hpre2 rfl (by simp [hlen])]
    have e : i + 1 + ds.length = i + (c :: ds).length := by
      simp only [List.length_cons]
      omega
    rw [e]
    simp

/-- Reading a whole field and the `.` after it. -/
theorem parseIPv4Loop_field_dot (s p0 g r : GoString) (st : netip.V4State)
    (hs : s = p0 ++ (g ++ '.' :: r)) (hp : p0 = [] ∨ ∃ q, p0 = q ++ ['.'])
    (hg : Spec.isOctet g = true) (hr : r ≠ []) (hpos : st.pos ≠ 3)
    (hv : st.val = 0) (hl : st.digLen = 0) :
    netip.parseIPv4Loop s p0.length (g ++ '.' :: r) st =
      netip.parseIPv4Loop s (p0 ++ (g ++ ['.'])).length r
        { fields := st.fields.set st.pos (Spec.decVal g % 256), pos := st.pos + 1,
          val := 0, digLen := 0 } := by
  have hg2 := (isOctet_iff g).1 hg
  rw [parseIPv4Loop_digits s g [] ('.' :: r) p0.length st (by simpa using hg2.2)
    (by simp [hv, decVal_nil]) (by simp [hl])]
  have hguard := dot_guard_iff p0 g r hp (isOctet_digits hg)
  rw [← hs] at hguard
  have hng : ¬ (p0.length + g.length = 0 ∨ p0.length + g.length = s.length - 1
      ∨ s.getD (p0.length + g.length - 1) ' ' = '.') := by
    rw [hguard]
    push_neg
    exact ⟨hg2.1, hr⟩
  have hd : ¬ ('0' ≤ '.' ∧ '.' ≤ '9') := by decide
  rw [netip.parseIPv4Loop, if_neg hd, if_pos rfl, if_neg hng]
  simp only [List.nil_append]
  rw [if_neg hpos]
  simp [Nat.add_assoc]

/-- Reading the last field. -/
theorem parseIPv4Loop_last (s g : GoString) (i : Nat) (st : netip.V4State)
    (hg : Spec.isOctet g = true) (hv : st.val = 0) (hl : st.digLen = 0) :
    netip.parseIPv4Loop s i g st =
      .ok { st with val := Spec.decVal g, digLen := g.length } := by
  have hg2 := (isOctet_iff g).1 hg
  have h := parseIPv4Loop_digits s g [] [] i st (by simpa using hg2.2)
    (by simp [hv, decVal_nil]) (by simp [hl])
  simp only [List.append_nil, List.nil_append] at h
  rw [h, netip.parseIPv4Loop]

/-- Completeness of `parseIPv4Fields`: a dotted-quad of four octets parses to
the values of its octets. -/
theorem parseIPv4Fields_quad (g0 g1 g2 g3 : GoString)
    (h0 : Spec.isOctet g0 = true) (h1 : Spec.isOctet g1 = true)
    (h2 : Spec.isOctet g2 = true) (h3 : Spec.isOctet g3 = true) :
    netip.parseIPv4Fields (Spec.quad g0 g1 g2 g3) =
      .ok [Spec.decVal g0, Spec.decVal g1, Spec.decVal g2, Spec.decVal g3] := by
  have n3 : g3 ≠ [] := ((isOctet_iff g3).1 h3).1
  have e0 := parseIPv4Loop_field_dot (Spec.quad g0 g1 g2 g3) [] g0
    (g1 ++ '.' :: (g2 ++ '.' :: g3))
    { val := 0, pos := 0, digLen := 0, fields := [0, 0, 0, 0] }
    rfl (Or.inl rfl) h0 (by simp) (by simp) rfl rfl
  have e1 := parseIPv4Loop_field_dot (Spec.quad g0 g1 g2 g3) (g0 ++ ['.']) g1
    (g2 ++ '.' :: g3)
    { fields := [Spec.decVal g0 % 256, 0, 0, 0], pos := 1, val := 0, digLen := 0 }
    (by simp [Spec.quad]) (Or.inr ⟨g0, rfl⟩) h1 (by simp) (by simp) rfl rfl
  have e2 := parseIPv4Loop_field_dot (Spec.quad g0 g1 g2 g3) (g0 ++ ['.'] ++ (g1 ++ ['.'])) g2
    g3
    { fields := [Spec.decVal g0 % 256, Spec.decVal g1 % 256, 0, 0], pos := 2, val := 0,
      digLen := 0 }
    (by simp [Spec.quad]) (Or.inr ⟨g0 ++ ['.'] ++ g1, by simp⟩) h2 n3 (by simp) rfl rfl
  have e3 := parseIPv4Loop_last (Spec.quad g0 g1 g2 g3) g3
    (g0 ++ ['.'] ++ (g1 ++ ['.']) ++ (g2 ++ ['.'])).length
    { fields := [Spec.decVal g0 % 256, Spec.decVal g1 % 256, Spec.decVal g2 % 256, 0],
      pos := 3, val := 0, digLen := 0 } h3 rfl rfl
  have e : netip.parseIPv4Loop (Spec.quad g0 g1 g2 g3) 0 (Spec.quad g0 g1 g2 g3)
      { val := 0, pos := 0, digLen := 0, fields := [0, 0, 0, 0] } =
      .ok { fields := [Spec.decVal g0 % 256, Spec.decVal g1 % 256, Spec.decVal g2 % 256, 0],
            pos := 3, val := Spec.decVal g3, digLen := g3.length } := by
    have e0' := e0
    simp only [List.length_nil, List.nil_append, List.set_cons_zero] at e0'
    rw [show Spec.quad g0 g1 g2 g3 = g0 ++ '.' :: (g1 ++ '.' :: (g2 ++ '.' :: g3)) from rfl]
      at e0' ⊢
    rw [e0']
    have e1' := e1
    simp only [Spec.quad, List.set_cons_succ, List.set_cons_zero, List.length_append,
      List.length_cons, List.length_nil] at e1'
    simp only [List.length_append, List.length_cons, List.length_nil]
    rw [e1']
    have e2' := e2
    simp only [Spec.quad, List.set_cons_succ, List.set_cons_zero, List.length_append,
      List.length_cons, List.length_nil] at e2'
    simp only [Nat.add_assoc] at e2' ⊢
    rw [e2']
    have e3' := e3
    simp only [Spec.quad, List.length_append, List.length_cons, List.length_nil,
      Nat.add_assoc] at e3'
    rw [e3']
  unfold netip.parseIPv4Fields
  rw [e]
  have l0 := isOctet_le h0
  have l1 := isOctet_le h1
  have l2 := isOctet_le h2
  have l3 := isOctet_le h3
  simp [Nat.mod_eq_of_lt (show Spec.decVal g0 < 256 by omega),
    Nat.mod_eq_of_lt (show Spec.decVal g1 < 256 by omega),
    Nat.mod_eq_of_lt (show Spec.decVal g2 < 256 by omega),
    Nat.mod_eq_of_lt (show Spec.decVal g3 < 256 by omega)]

/-- Soundness of `parseIPv4Fields`: what it accepts is a dotted-quad of four
octets, and the fields are the values of the octets. -/
theorem parseIPv4Fields_sound (s : GoString) (fs : List Nat)
    (h : netip.parseIPv4Fields s = .ok fs) :
    ∃ g0 g1 g2 g3, s = Spec.quad g0 g1 g2 g3 ∧ Spec.isOctet g0 = true ∧
      Spec.isOctet g1 = true ∧ Spec.isOctet g2 = true ∧ Spec.isOctet g3 = true ∧
      fs = [Spec.decVal g0, Spec.decVal g1, Spec.decVal g2, Spec.decVal g3] := by
  unfold netip.parseIPv4Fields at h
  cases hl : netip.parseIPv4Loop s 0 s { val := 0, pos := 0, digLen := 0, fields := [0, 0, 0, 0] } with
  | error e => rw [hl] at h; cases h
  | ok st1 =>
    rw [hl] at h
    simp only at h
    by_cases hpos : st1.pos < 3
    · rw [if_pos hpos] at h
      cases h
    rw [if_neg hpos] at h
    simp only [Except.ok.injEq] at h
    -- first field
    obtain ⟨g0, p0, hc0⟩ := parseIPv4Loop_field s s [] [] 0 _ st1 (by simp) rfl (Or.inl rfl)
      isOctetPrefix_nil rfl rfl hl
    rcases hc0 with ⟨-, hst⟩ | ⟨r1, hs1, n0, nr1, -, hl1⟩
    · rw [hst] at hpos
      simp at hpos
    simp only [List.nil_append, List.set_cons_zero, zero_add] at p0 n0 hl1
    -- second field
    obtain ⟨g1, p1, hc1⟩ := parseIPv4Loop_field s r1 (g0 ++ ['.']) [] (g0.length + 1) _ st1
      (by simp [hs1]) (by simp) (Or.inr ⟨g0, rfl⟩) isOctetPrefix_nil rfl rfl hl1
    rcases hc1 with ⟨-, hst⟩ | ⟨r2, hs2, n1, nr2, -, hl2⟩
    · rw [hst] at hpos
      simp at hpos
    simp only [List.nil_append, List.set_cons_zero, List.set_cons_succ, zero_add] at p1 n1 hl2
    -- third field
    obtain ⟨g2, p2, hc2⟩ := parseIPv4Loop_field s r2 (g0 ++ ['.'] ++ (g1 ++ ['.'])) []
      (g0.length + 1 + g1.length + 1) _ st1
      (by simp [hs1, hs2]) (by simp; omega) (Or.inr ⟨g0 ++ ['.'] ++ g1, by simp⟩)
      isOctetPrefix_nil rfl rfl hl2
    rcases hc2 with ⟨-, hst⟩ | ⟨r3, hs3, n2, nr3, -, hl3⟩
    · rw [hst] at hpos
      simp at hpos
    simp only [List.nil_append, List.set_cons_zero, List.set_cons_succ, zero_add] at p2 n2 hl3
    -- fourth field
    obtain ⟨g3, p3, hc3⟩ := parseIPv4Loop_field s r3
      (g0 ++ ['.'] ++ (g1 ++ ['.']) ++ (g2 ++ ['.'])) []
      (g0.length + 1 + g1.length + 1 + g2.length + 1) _ st1
      (by simp [hs1, hs2, hs3]) (by simp; omega)
      (Or.inr ⟨g0 ++ ['.'] ++ (g1 ++ ['.']) ++ g2, by simp⟩)
      isOctetPrefix_nil rfl rfl hl3
    rcases hc3 with ⟨hs4, hst⟩ | ⟨r4, -, -, -, hp, -⟩
    swap
    · simp at hp
    simp only [List.nil_append] at p3 hst
    have o0 : Spec.isOctet g0 = true := (isOctet_iff g0).2 ⟨n0, p0⟩
    have o1 : Spec.isOctet g1 = true := (isOctet_iff g1).2 ⟨n1, p1⟩
    have o2 : Spec.isOctet g2 = true := (isOctet_iff g2).2 ⟨n2, p2⟩
    have o3 : Spec.isOctet g3 = true := (isOctet_iff g3).2 ⟨by rw [← hs4]; exact nr3, p3⟩
    refine ⟨g0, g1, g2, g3, by rw [hs1, hs2, hs3, hs4]; rfl, o0, o1, o2, o3, ?_⟩
    have l0 := isOctet_le o0
    have l1 := isOctet_le o1
    have l2 := isOctet_le o2
    have l3 := isOctet_le o3
    rw [← h, hst]
    simp [Nat.mod_eq_of_lt (show Spec.decVal g0 < 256 by omega),
      Nat.mod_eq_of_lt (show Spec.decVal g1 < 256 by omega),
      Nat.mod_eq_of_lt (show Spec.decVal g2 < 256 by omega),
      Nat.mod_eq_of_lt (show Spec.decVal g3 < 256 by omega)]

/-! ## `strings.Split` -/

theorem splitLoop_append (sep : Char) :
    ∀ (g cur rest : GoString), sep ∉ g →
      strings.splitLoop sep cur (g ++ rest) = strings.splitLoop sep (cur ++ g) rest := by
  intro g
  induction g with
  | nil => intro cur rest _; simp
  | cons c g ih =>
    intro cur rest h
    have hc : c ≠ sep := fun e => h (by simp [e])
    have hg : sep ∉ g := fun e => h (by simp [e])
    rw [List.cons_append, strings.splitLoop, if_neg hc, ih _ _ hg]
    simp

theorem Split_of_not_mem (sep : Char) (g : GoString) (h : sep ∉ g) :
    strings.Split g sep = [g] := by
  have e := splitLoop_append sep g [] [] h
  simp only [List.append_nil, List.nil_append] at e
  rw [strings.Split, e, strings.splitLoop]

theorem Split_append_sep (sep : Char) (g rest : GoString) (h : sep ∉ g) :
    strings.Split (g ++ sep :: rest) sep = g :: strings.Split rest sep := by
  rw [strings.Split, splitLoop_append sep g [] _ h, strings.splitLoop, if_pos rfl]
  simp [strings.Split]

theorem splitLoop_ne_nil (sep : Char) :
    ∀ (s cur : GoString), strings.splitLoop sep cur s ≠ [] := by
  intro s
  induction s with
  | nil => intro cur; simp [strings.splitLoop]
  | cons c s ih =>
    intro cur
    rw [strings.splitLoop]
    split
    · simp
    · exact ih _

/-- The first token of a split and what is left of the input. -/
theorem splitLoop_cons (sep : Char) :
    ∀ (s cur g : GoString) (gs : List GoString), strings.splitLoop sep cur s = g :: gs →
      (gs = [] ∧ g = cur ++ s) ∨
      (∃ pre rest, g = cur ++ pre ∧ s = pre ++ sep :: rest ∧
        gs = strings.splitLoop sep [] rest) := by
  intro s
  induction s with
  | nil =>
    intro cur g gs h
    simp only [strings.splitLoop, List.cons.injEq] at h
    exact Or.inl ⟨h.2.symm, by simp [h.1]⟩
  | cons c s ih =>
    intro cur g gs h
    rw [strings.splitLoop] at h
    by_cases hc : c = sep
    · rw [if_pos hc] at h
      simp only [List.cons.injEq] at h
      exact Or.inr ⟨[], s, by simp [h.1], by simp [hc], h.2.symm⟩
    · rw [if_neg hc] at h
      rcases ih _ g gs h with ⟨h1, h2⟩ | ⟨pre, rest, h1, h2, h3⟩
      · exact Or.inl ⟨h1, by simp [h2]⟩
      · exact Or.inr ⟨c :: pre, rest, by simp [h1], by simp [h2], h3⟩

theorem Split_four (s a b c d : GoString) (h : strings.Split s '.' = [a, b, c, d]) :
    s = Spec.quad a b c d := by
  rcases splitLoop_cons '.' s [] a _ h with ⟨h1, -⟩ | ⟨p0, r0, ha, hs0, h0⟩
  · cases h1
  rcases splitLoop_cons '.' r0 [] b _ h0.symm with ⟨h1, -⟩ | ⟨p1, r1, hb, hs1, h1⟩
  · cases h1
  rcases splitLoop_cons '.' r1 [] c _ h1.symm with ⟨h1, -⟩ | ⟨p2, r2, hc, hs2, h2⟩
  · cases h1
  rcases splitLoop_cons '.' r2 [] d _ h2.symm with ⟨-, hd⟩ | ⟨p3, r3, -, -, h3⟩
  · simp only [List.nil_append] at ha hb hc hd
    rw [hs0, hs1, hs2, ha, hb, hc, hd]
    rfl
  · exact absurd h3.symm (splitLoop_ne_nil _ _ _)

theorem dot_not_mem_of_isOctet {g : GoString} (h : Spec.isOctet g = true) : '.' ∉ g :=
  fun hm => isDigit_ne_dot (isOctet_digits h _ hm) rfl

theorem dash_not_mem_of_isOctet {g : GoString} (h : Spec.isOctet g = true) : '-' ∉ g :=
  fun hm => isDigit_ne_dash (isOctet_digits h _ hm) rfl

theorem Split_quad (g0 g1 g2 g3 : GoString)
    (h0 : Spec.isOctet g0 = true) (h1 : Spec.isOctet g1 = true)
    (h2 : Spec.isOctet g2 = true) (h3 : Spec.isOctet g3 = true) :
    strings.Split (Spec.quad g0 g1 g2 g3) '.' = [g0, g1, g2, g3] := by
  rw [Spec.quad, Split_append_sep _ _ _ (dot_not_mem_of_isOctet h0),
    Split_append_sep _ _ _ (dot_not_mem_of_isOctet h1),
    Split_append_sep _ _ _ (dot_not_mem_of_isOctet h2),
    Split_of_not_mem _ _ (dot_not_mem_of_isOctet h3)]

/-- A valid dotted-quad is four octets with dots between them. -/
theorem isDottedQuad_iff (s : GoString) :
    Spec.isDottedQuad s = true ↔
      ∃ g0 g1 g2 g3, s = Spec.quad g0 g1 g2 g3 ∧ Spec.isOctet g0 = true ∧
        Spec.isOctet g1 = true ∧ Spec.isOctet g2 = true ∧ Spec.isOctet g3 = true := by
  constructor
  · intro h
    unfold Spec.isDottedQuad at h
    split at h
    · rename_i a b c d hsp
      simp only [Bool.and_eq_true] at h
      exact ⟨a, b, c, d, Split_four s a b c d hsp, h.1.1.1, h.1.1.2, h.1.2, h.2⟩
    · cases h
  · rintro ⟨g0, g1, g2, g3, rfl, h0, h1, h2, h3⟩
    unfold Spec.isDottedQuad
    rw [Split_quad g0 g1 g2 g3 h0 h1 h2 h3]
    simp [h0, h1, h2, h3]

theorem octets_quad (g0 g1 g2 g3 : GoString)
    (h0 : Spec.isOctet g0 = true) (h1 : Spec.isOctet g1 = true)
    (h2 : Spec.isOctet g2 = true) (h3 : Spec.isOctet g3 = true) :
    Spec.octets (Spec.quad g0 g1 g2 g3) =
      [Spec.decVal g0, Spec.decVal g1, Spec.decVal g2, Spec.decVal g3] := by
  rw [Spec.octets, Split_quad g0 g1 g2 g3 h0 h1 h2 h3]
  rfl

/-- The IPv4 field parser accepts exactly the valid dotted-quads, and returns
their octets. -/
theorem parseIPv4Fields_ok_iff (s : GoString) (fs : List Nat) :
    netip.parseIPv4Fields s = .ok fs ↔ Spec.isDottedQuad s = true ∧ fs = Spec.octets s := by
  constructor
  · intro h
    obtain ⟨g0, g1, g2, g3, rfl, h0, h1, h2, h3, hfs⟩ := parseIPv4Fields_sound s fs h
    exact ⟨(isDottedQuad_iff _).2 ⟨g0, g1, g2, g3, rfl, h0, h1, h2, h3⟩,
      by rw [hfs, octets_quad g0 g1 g2 g3 h0 h1 h2 h3]⟩
  · rintro ⟨hq, rfl⟩
    obtain ⟨g0, g1, g2, g3, rfl, h0, h1, h2, h3⟩ := (isDottedQuad_iff s).1 hq
    rw [parseIPv4Fields_quad g0 g1 g2 g3 h0 h1 h2 h3, octets_quad g0 g1 g2 g3 h0 h1 h2 h3]

/-! ## The iteration bound of the IPv6 loop -/

theorem parseIPv6Step_i (st st1 : netip.V6State)
    (h : netip.parseIPv6Step st = .ok (st1, true)) : st1.i = st.i + 2 := by
  unfold netip.parseIPv6Step at h
  dsimp only at h
  repeat' split at h
  all_goals first
    | (cases h; done)
    | (cases h; rfl)

/-- Eight iterations are enough for the `for i < 16` loop of `parseIPv6`: once
`16 ≤ i + 2 * k`, one more iteration of allowance changes nothing. -/
theorem parseIPv6Loop_fuel :
    ∀ (k : Nat) (st : netip.V6State), 16 ≤ st.i + 2 * k →
      netip.parseIPv6Loop (k + 1) st = netip.parseIPv6Loop k st := by
  intro k
  induction k with
  | zero =>
    intro st h
    have h' : ¬ st.i < 16 := by omega
    simp only [netip.parseIPv6Loop, h', if_false]
  | succ k ih =>
    intro st h
    rw [netip.parseIPv6Loop]
    conv_rhs => rw [netip.parseIPv6Loop]
    by_cases hi : st.i < 16
    · rw [if_pos hi, if_pos hi]
      cases hs : netip.parseIPv6Step st with
      | error e => rfl
      | ok r =>
        obtain ⟨st1, b⟩ := r
        cases b with
        | false => rfl
        | true =>
          have e := parseIPv6Step_i st st1 hs
          exact ih st1 (by omega)
    · rw [if_neg hi, if_neg hi]

/-! ## `netip.ParseAddr` -/

theorem WithZone_is4 (a : netip.Addr) (zone : GoString) (h : a.z = netip.Zone.z6 []) :
    (a.WithZone zone).Is4 = false := by
  simp [netip.Addr.WithZone, netip.Addr.Is6, netip.Addr.Is4, h]

/-- An address that `parseIPv6` returns is never an IPv4 address. -/
theorem parseIPv6_not_is4 (s : GoString) (a : netip.Addr) (h : netip.parseIPv6 s = .ok a) :
    a.Is4 = false := by
  unfold netip.parseIPv6 at h
  simp only at h
  split at h
  · cases h
  split at h
  · simp only [Except.ok.injEq] at h
    rw [← h]
    exact WithZone_is4 _ _ rfl
  split at h
  · cases h
  split at h
  · cases h
  split at h
  · split at h
    · cases h
    · simp only [Except.ok.injEq] at h
      rw [← h]
      exact WithZone_is4 _ _ rfl
  split at h
  · cases h
  · simp only [Except.ok.injEq] at h
    rw [← h]
    exact WithZone_is4 _ _ rfl

theorem AddrFrom4_is4 (fs : List Nat) : (netip.AddrFrom4 fs).Is4 = true := rfl

theorem parseIPv4_is4 (s : GoString) (a : netip.Addr) (h : netip.parseIPv4 s = .ok a) :
    a.Is4 = true := by
  unfold netip.parseIPv4 at h
  split at h
  · cases h
  · simp only [Except.ok.injEq] at h
    rw [← h]
    rfl

theorem parseAddrScan_cases (s : GoString) :
    ∀ (t : GoString) (a : netip.Addr), netip.parseAddrScan s t = .ok a →
      (netip.parseIPv4 s = .ok a ∧ '.' ∈ t) ∨ netip.parseIPv6 s = .ok a := by
  intro t
  induction t with
  | nil => intro a h; cases h
  | cons c t ih =>
    intro a h
    rw [netip.parseAddrScan] at h
    split at h
    · rename_i hc
      exact Or.inl ⟨h, by simp [hc]⟩
    split at h
    · exact Or.inr h
    split at h
    · cases h
    · rcases ih a h with ⟨h1, h2⟩ | h1
      · exact Or.inl ⟨h1, by simp [h2]⟩
      · exact Or.inr h1

theorem parseAddrScan_digits (s : GoString) :
    ∀ (ds rest : GoString), (∀ c ∈ ds, Spec.isDigit c = true) →
      netip.parseAddrScan s (ds ++ '.' :: rest) = netip.parseIPv4 s := by
  intro ds
  induction ds with
  | nil => intro rest _; simp [netip.parseAddrScan]
  | cons c ds ih =>
    intro rest h
    have hc : Spec.isDigit c = true := h c (by simp)
    have h1 : c ≠ '.' := isDigit_ne_dot hc
    have h2 : c ≠ ':' := by rintro rfl; revert hc; decide
    have h3 : c ≠ '%' := by rintro rfl; revert hc; decide
    rw [List.cons_append, netip.parseAddrScan, if_neg h1, if_neg h2, if_neg h3]
    exact ih rest (fun x hx => h x (by simp [hx]))

/-- What `netip.ParseAddr` returns as an IPv4 address: exactly the valid
dotted-quads are parsed to one, with the octets of the text. -/
theorem ParseAddr_is4_iff (s : GoString) (a : netip.Addr) :
    (netip.ParseAddr s = .ok a ∧ a.Is4 = true) ↔
      (Spec.isDottedQuad s = true ∧ a = netip.AddrFrom4 (Spec.octets s)) := by
  constructor
  · rintro ⟨h, h4⟩
    rcases parseAddrScan_cases s s a h with ⟨h1, -⟩ | h1
    · unfold netip.parseIPv4 at h1
      cases hf : netip.parseIPv4Fields s with
      | error e => rw [hf] at h1; cases h1
      | ok fs =>
        rw [hf] at h1
        simp only [Except.ok.injEq] at h1
        obtain ⟨hq, rfl⟩ := (parseIPv4Fields_ok_iff s fs).1 hf
        exact ⟨hq, h1.symm⟩
    · rw [parseIPv6_not_is4 s a h1] at h4
      cases h4
  · rintro ⟨hq, rfl⟩
    refine ⟨?_, rfl⟩
    have hf := (parseIPv4Fields_ok_iff s (Spec.octets s)).2 ⟨hq, rfl⟩
    obtain ⟨g0, g1, g2, g3, hs, h0, -⟩ := (isDottedQuad_iff s).1 hq
    have e : netip.parseAddrScan s s = netip.parseIPv4 s :=
      (congrArg (netip.parseAddrScan s) hs).trans
        (parseAddrScan_digits s g0 _ (isOctet_digits h0))
    rw [netip.ParseAddr, e, netip.parseIPv4, hf]

/-- The netip program's `ParseIP` returns an address exactly on the valid
dotted-quads. -/
theorem ParseIP_ok_iff (s : GoString) (a : netip.Addr) :
    Ipv4Range.ParseIP s = .ok a ↔
      (Spec.isDottedQuad s = true ∧ a = netip.AddrFrom4 (Spec.octets s)) := by
  rw [← ParseAddr_is4_iff]
  unfold Ipv4Range.ParseIP
  cases hp : netip.ParseAddr s with
  | error e => simp
  | ok b =>
    by_cases h4 : b.Is4 = true
    · simp only [h4, Bool.not_true, Bool.false_eq_true, if_false, Except.ok.injEq]
      constructor
      · rintro rfl
        exact ⟨rfl, h4⟩
      · rintro ⟨rfl, -⟩
        rfl
    · simp only [Bool.not_eq_true] at h4
      simp only [h4, Bool.not_false, if_true, Except.ok.injEq]
      constructor
      · intro h; cases h
      · rintro ⟨rfl, h⟩
        rw [h4] at h
        cases h

/-! ## Addresses as integers -/

theorem lor_bytes (a b c d : Nat) (ha : a < 256) (hb : b < 256) (hc : c < 256) (hd : d < 256) :
    0xffff00000000 ||| a <<< 24 ||| b <<< 16 ||| c <<< 8 ||| d =
      0xffff00000000 + (a * 2 ^ 24 + b * 2 ^ 16 + c * 2 ^ 8 + d) := by
  have e1 : c <<< 8 ||| d = c * 2 ^ 8 + d := by
    rw [Nat.shiftLeft_eq, Nat.mul_comm c, ← Nat.mul_add_lt_is_or (by omega)]
  have e2 : b <<< 16 ||| (c * 2 ^ 8 + d) = b * 2 ^ 16 + (c * 2 ^ 8 + d) := by
    rw [Nat.shiftLeft_eq, Nat.mul_comm b, ← Nat.mul_add_lt_is_or (by omega)]
  have e3 : a <<< 24 ||| (b * 2 ^ 16 + (c * 2 ^ 8 + d)) =
      a * 2 ^ 24 + (b * 2 ^ 16 + (c * 2 ^ 8 + d)) := by
    rw [Nat.shiftLeft_eq, Nat.mul_comm a, ← Nat.mul_add_lt_is_or (by omega)]
  have e4 : 0xffff00000000 ||| (a * 2 ^ 24 + (b * 2 ^ 16 + (c * 2 ^ 8 + d))) =
      0xffff00000000 + (a * 2 ^ 24 + (b * 2 ^ 16 + (c * 2 ^ 8 + d))) := by
    rw [show (0xffff00000000 : Nat) = 2 ^ 32 * 0xffff by norm_num,
      ← Nat.mul_add_lt_is_or (by omega)]
  rw [Nat.or_assoc, Nat.or_assoc, Nat.or_assoc, e1, e2, e3, e4]
  omega

theorem AddrFrom4_lo (o : List Nat) (h : Spec.isOctets o) :
    (netip.AddrFrom4 o).lo = 0xffff00000000 + Spec.toUint32 o := by
  obtain ⟨a, b, c, d, rfl, ha, hb, hc, hd⟩ := h
  simp only [netip.AddrFrom4, Spec.toUint32, List.getD_cons_zero, List.getD_cons_succ,
    Nat.mod_eq_of_lt ha, Nat.mod_eq_of_lt hb, Nat.mod_eq_of_lt hc, Nat.mod_eq_of_lt hd]
  exact lor_bytes a b c d ha hb hc hd

theorem toUint32_lt (o : List Nat) (h : Spec.isOctets o) : Spec.toUint32 o < 2 ^ 32 := by
  obtain ⟨a, b, c, d, rfl, ha, hb, hc, hd⟩ := h
  simp only [Spec.toUint32, List.getD_cons_zero, List.getD_cons_succ]
  omega

theorem isOctets_octets (s : GoString) (h : Spec.isDottedQuad s = true) :
    Spec.isOctets (Spec.octets s) := by
  obtain ⟨g0, g1, g2, g3, rfl, h0, h1, h2, h3⟩ := (isDottedQuad_iff s).1 h
  rw [octets_quad g0 g1 g2 g3 h0 h1 h2 h3]
  have l0 := isOctet_le h0
  have l1 := isOctet_le h1
  have l2 := isOctet_le h2
  have l3 := isOctet_le h3
  exact ⟨_, _, _, _, rfl, by omega, by omega, by omega, by omega⟩

theorem value_lt (s : GoString) (h : Spec.isDottedQuad s = true) : Spec.value s < 2 ^ 32 :=
  toUint32_lt _ (isOctets_octets s h)

/-- On IPv4 addresses `Addr.Less` is the order of the 32-bit integers. -/
theorem Less_AddrFrom4 (x y : List Nat) (hx : Spec.isOctets x) (hy : Spec.isOctets y) :
    (netip.AddrFrom4 x).Less (netip.AddrFrom4 y) = decide (Spec.toUint32 x < Spec.toUint32 y) := by
  have ex := AddrFrom4_lo x hx
  have ey := AddrFrom4_lo y hy
  have e1 : (netip.AddrFrom4 x).BitLen = 32 := rfl
  have e2 : (netip.AddrFrom4 y).BitLen = 32 := rfl
  have e3 : (netip.AddrFrom4 x).hi = 0 := rfl
  have e4 : (netip.AddrFrom4 y).hi = 0 := rfl
  have e5 : (netip.AddrFrom4 x).Is6 = false := rfl
  simp only [netip.Addr.Less, netip.Addr.Compare, e1, e2, e3, e4, e5, ex, ey, lt_irrefl,
    gt_iff_lt, if_false, Bool.false_eq_true]
  by_cases h : Spec.toUint32 x < Spec.toUint32 y
  · simp [h]
  · have h2 : ¬ (281470681743360 + Spec.toUint32 x < 281470681743360 + Spec.toUint32 y) := by
      omega
    simp only [h, h2, if_false, decide_False]
    split <;> decide

/-! ## Bytes of an IPv4 address -/

theorem As16_AddrFrom4 (o : List Nat) (h : Spec.isOctets o) :
    (netip.AddrFrom4 o).As16 = [0, 0, 0, 0, 0, 0, 0, 0, 0, 0, 255, 255] ++ o := by
  have e := AddrFrom4_lo o h
  obtain ⟨a, b, c, d, rfl, ha, hb, hc, hd⟩ := h
  have e0 : (netip.AddrFrom4 [a, b, c, d]).hi = 0 := rfl
  simp only [Spec.toUint32, List.getD_cons_zero, List.getD_cons_succ] at e
  simp only [netip.Addr.As16, netip.bePutUint64, e, e0, Nat.shiftRight_eq_div_pow]
  norm_num
  refine ⟨?_, ?_, ?_, ?_, ?_, ?_, ?_, ?_⟩ <;> omega

theorem beValue_four (a b c d : Nat) (ha : a < 256) (hb : b < 256) (hc : c < 256)
    (hd : d < 256) : netip.beValue [a, b, c, d] = Spec.toUint32 [a, b, c, d] := by
  simp only [netip.beValue, List.foldl_cons, List.foldl_nil, Spec.toUint32,
    List.getD_cons_zero, List.getD_cons_succ, Nat.mod_eq_of_lt ha, Nat.mod_eq_of_lt hb,
    Nat.mod_eq_of_lt hc, Nat.mod_eq_of_lt hd]
  omega

/-- On a valid dotted-quad `net.ParseIP` gives the 16 bytes of the
IPv4-mapped address. -/
theorem net_ParseIP_quad (s : GoString) (h : Spec.isDottedQuad s = true) :
    net.ParseIP s = some ([0, 0, 0, 0, 0, 0, 0, 0, 0, 0, 255, 255] ++ Spec.octets s) := by
  have hp := ((ParseAddr_is4_iff s _).2 ⟨h, rfl⟩).1
  rw [net.ParseIP, hp]
  have hz : (netip.AddrFrom4 (Spec.octets s)).Zone = [] := rfl
  simp only [hz, ne_eq, not_true_eq_false, if_false]
  rw [As16_AddrFrom4 _ (isOctets_octets s h)]

/-- On a valid dotted-quad `IP4toInt (net.ParseIP s)` is the 32-bit integer
of the address. -/
theorem IP4toInt_quad (s : GoString) (h : Spec.isDottedQuad s = true) :
    Ipv4RangeGo.IP4toInt (net.ParseIP s) = (Spec.value s : Int) := by
  rw [net_ParseIP_quad s h]
  have hlt := value_lt s h
  obtain ⟨a, b, c, d, ho, ha, hb, hc, hd⟩ := isOctets_octets s h
  rw [Spec.value] at hlt ⊢
  rw [ho] at hlt ⊢
  have e : net.IP.To4 (some ([0, 0, 0, 0, 0, 0, 0, 0, 0, 0, 255, 255] ++ [a, b, c, d])) =
      some [a, b, c, d] := by
    simp [net.IP.To4]
  rw [Ipv4RangeGo.IP4toInt, e, big.SetBytes, beValue_four a b c d ha hb hc hd, big.Int64]
  have hm : Spec.toUint32 [a, b, c, d] % 2 ^ 64 = Spec.toUint32 [a, b, c, d] :=
    Nat.mod_eq_of_lt (by omega)
  simp only [hm]
  rw [if_pos (by omega)]

/-! ## The two programs on a pair of valid addresses -/

theorem dash_not_mem_of_isDottedQuad (s : GoString) (h : Spec.isDottedQuad s = true) :
    '-' ∉ s := by
  obtain ⟨g0, g1, g2, g3, rfl, h0, h1, h2, h3⟩ := (isDottedQuad_iff s).1 h
  have n0 := dash_not_mem_of_isOctet h0
  have n1 := dash_not_mem_of_isOctet h1
  have n2 := dash_not_mem_of_isOctet h2
  have n3 := dash_not_mem_of_isOctet h3
  have hd : '-' ≠ '.' := by decide
  simp [Spec.quad, n0, n1, n2, n3, hd]

theorem Split_pair (a b : GoString) (ha : '-' ∉ a) (hb : '-' ∉ b) :
    strings.Split (a ++ ['-'] ++ b) '-' = [a, b] := by
  rw [List.append_assoc, List.singleton_append, Split_append_sep _ _ _ ha,
    Split_of_not_mem _ _ hb]

/-- C1: the netip program, run with the single argument `a-b` for valid
dotted-quads `a` and `b`, exits with status 0 when `a < b` as unsigned 32-bit
integers, and with status 1 otherwise (also when `a = b`). -/
theorem netip_main_valid_pair (prog a b : GoString)
    (ha : Spec.isDottedQuad a = true) (hb : Spec.isDottedQuad b = true) :
    (Ipv4Range.main [prog, a ++ ['-'] ++ b]).status =
      Status.exit (if Spec.value a < Spec.value b then 0 else 1) := by
  have hsplit := Split_pair a b (dash_not_mem_of_isDottedQuad a ha)
    (dash_not_mem_of_isDottedQuad b hb)
  have pa := (ParseIP_ok_iff a _).2 ⟨ha, rfl⟩
  have pb := (ParseIP_ok_iff b _).2 ⟨hb, rfl⟩
  have hl := Less_AddrFrom4 _ _ (isOctets_octets a ha) (isOctets_octets b hb)
  simp only [Ipv4Range.main, List.length_cons, List.length_nil, List.get?_cons_succ,
    List.get?_cons_zero, hsplit, pa, pb, hl]
  by_cases h : Spec.value a < Spec.value b
  · have h' : Spec.toUint32 (Spec.octets a) < Spec.toUint32 (Spec.octets b) := h
    simp [h, h']
  · have h' : ¬ Spec.toUint32 (Spec.octets a) < Spec.toUint32 (Spec.octets b) := h
    simp [h, h']

theorem netip_main_valid_pair_witness :
    Spec.isDottedQuad "192.0.2.1".toList = true ∧ Spec.isDottedQuad "192.0.2.10".toList = true ∧
    (Ipv4Range.main ["ipv4-range".toList, "192.0.2.1".toList ++ ['-'] ++ "192.0.2.10".toList]).status
      = Status.exit (if Spec.value "192.0.2.1".toList < Spec.value "192.0.2.10".toList
          then 0 else 1) :=
  ⟨by decide, by decide, netip_main_valid_pair _ _ _ (by decide) (by decide)⟩

theorem hostsLoop_pair (a b : GoString) (ha : Spec.isDottedQuad a = true)
    (hb : Spec.isDottedQuad b = true) : Ipv4RangeGo.hostsLoop [a, b] = true := by
  simp [Ipv4RangeGo.hostsLoop, Ipv4RangeGo.IsIPv4, net_ParseIP_quad a ha, net_ParseIP_quad b hb]

theorem Contains_iff (s : GoString) (sep : Char) : strings.Contains s sep = true ↔ sep ∈ s := by
  unfold strings.Contains
  rw [List.any_eq_true]
  constructor
  · rintro ⟨x, hx, he⟩
    rw [beq_iff_eq] at he
    rw [← he]
    exact hx
  · intro h
    exact ⟨sep, h, by simp⟩

/-- C2: the legacy program, run with the single argument `a-b` for valid
dotted-quads `a` and `b`, exits with status 0 when `a < b` as unsigned 32-bit
integers, and with status 1 otherwise (also when `a = b`). -/
theorem legacy_main_valid_pair (prog a b : GoString)
    (ha : Spec.isDottedQuad a = true) (hb : Spec.isDottedQuad b = true) :
    Ipv4RangeGo.main [prog, a ++ ['-'] ++ b] =
      Status.exit (if Spec.value a < Spec.value b then 0 else 1) := by
  have hsplit := Split_pair a b (dash_not_mem_of_isDottedQuad a ha)
    (dash_not_mem_of_isDottedQuad b hb)
  have hc : strings.Contains (a ++ ['-'] ++ b) '-' = true := by
    rw [Contains_iff]
    simp
  simp only [Ipv4RangeGo.main, Ipv4RangeGo.mainBody, List.get?_cons_succ, List.get?_cons_zero,
    hsplit, hc, IP4toInt_quad a ha, IP4toInt_quad b hb, hostsLoop_pair a b ha hb]
  by_cases h : Spec.value a < Spec.value b
  · have h' : ¬ ((Spec.value a : Int) ≥ (Spec.value b : Int)) := by omega
    simp [h, h']
  · have h' : (Spec.value a : Int) ≥ (Spec.value b : Int) := by omega
    simp [h, h']

theorem legacy_main_valid_pair_witness :
    Spec.isDottedQuad "10.0.0.7".toList = true ∧ Spec.isDottedQuad "10.0.0.7".toList = true ∧
    Ipv4RangeGo.main ["ipv4-range-go".toList, "10.0.0.7".toList ++ ['-'] ++ "10.0.0.7".toList]
      = Status.exit (if Spec.value "10.0.0.7".toList < Spec.value "10.0.0.7".toList
          then 0 else 1) :=
  ⟨by decide, by decide, legacy_main_valid_pair _ _ _ (by decide) (by decide)⟩

/-! ## `ParseIP` of the netip program -/

/-- C3: whenever `netip.ParseAddr` parses `addr` as an IPv4 address, `ParseIP`
of the netip program returns that very address (it does not exit, and does not
change the value). -/
theorem ParseIP_eq_ParseAddr (addr : GoString) (a : netip.Addr)
    (h : netip.ParseAddr addr = .ok a) (h4 : a.Is4 = true) :
    Ipv4Range.ParseIP addr = .ok a := by
  unfold Ipv4Range.ParseIP
  rw [h]
  simp [h4]

theorem ParseIP_eq_ParseAddr_witness :
    netip.ParseAddr "192.0.2.1".toList = .ok (netip.AddrFrom4 [192, 0, 2, 1]) ∧
    (netip.AddrFrom4 [192, 0, 2, 1]).Is4 = true ∧
    Ipv4Range.ParseIP "192.0.2.1".toList = .ok (netip.AddrFrom4 [192, 0, 2, 1]) :=
  ⟨rfl, rfl, ParseIP_eq_ParseAddr _ _ rfl rfl⟩

theorem ParseIP_error_of_not_quad (s : GoString) (h : Spec.isDottedQuad s = false) :
    ∃ p, Ipv4Range.ParseIP s = .error p := by
  cases hp : Ipv4Range.ParseIP s with
  | error p => exact ⟨p, rfl⟩
  | ok a =>
    rw [((ParseIP_ok_iff s a).1 hp).1] at h
    cases h

/-- C4: `ParseIP` of the netip program ends in an error (a message and
`os.Exit(1)`) exactly when its argument is not a valid dotted-quad; every
token that `netip.ParseAddr` parses as an IPv6 address is rejected with the
message that the address is not an IPv4 one, and the IPv4-mapped form
`::ffff:192.0.2.1` is such a token. -/
theorem ParseIP_error_iff (s : GoString) :
    ((∃ p, Ipv4Range.ParseIP s = .error p) ↔ Spec.isDottedQuad s = false) ∧
    (∀ a, netip.ParseAddr s = .ok a → a.Is6 = true →
      Ipv4Range.ParseIP s =
        .error { text := "The address is not an IPv4: %s", arg := some (.addr a) }) ∧
    (∃ a, netip.ParseAddr "::ffff:192.0.2.1".toList = .ok a ∧ a.Is6 = true ∧
      Ipv4Range.ParseIP "::ffff:192.0.2.1".toList =
        .error { text := "The address is not an IPv4: %s", arg := some (.addr a) }) := by
  refine ⟨⟨?_, ParseIP_error_of_not_quad s⟩, ?_, ?_⟩
  · rintro ⟨p, hp⟩
    cases hq : Spec.isDottedQuad s with
    | false => rfl
    | true =>
      rw [(ParseIP_ok_iff s _).2 ⟨hq, rfl⟩] at hp
      cases hp
  · intro a h h6
    have h4 : a.Is4 = false := by
      simp only [netip.Addr.Is6, Bool.and_eq_true, bne_iff_ne, ne_eq] at h6
      simp [netip.Addr.Is4, h6.2]
    unfold Ipv4Range.ParseIP
    rw [h]
    simp [h4]
  · exact ⟨{ hi := 0, lo := 0xffffc0000201, z := netip.Zone.z6 [] }, rfl, rfl, rfl⟩

theorem ParseIP_error_iff_witness :
    netip.ParseAddr "2001:db8::68".toList =
      .ok { hi := 0x20010db800000000, lo := 0x68, z := netip.Zone.z6 [] } ∧
    netip.Addr.Is6 { hi := 0x20010db800000000, lo := 0x68, z := netip.Zone.z6 [] } = true ∧
    Ipv4Range.ParseIP "2001:db8::68".toList =
      .error { text := "The address is not an IPv4: %s",
               arg := some (.addr { hi := 0x20010db800000000, lo := 0x68,
                                    z := netip.Zone.z6 [] }) } :=
  ⟨rfl, rfl, (ParseIP_error_iff "2001:db8::68".toList).2.1 _ rfl rfl⟩

/-! ## The netip program on any single argument -/

/-- The exit status of the netip program on one argument: 0 when the
argument has at least two tokens, the first two are valid dotted-quads and
the first is below the second; 1 otherwise. -/
theorem netip_main_status (prog arg : GoString) :
    (Ipv4Range.main [prog, arg]).status =
      match strings.Split arg '-' with
      | t0 :: t1 :: _ =>
        if Spec.isDottedQuad t0 = true ∧ Spec.isDottedQuad t1 = true
            ∧ Spec.value t0 < Spec.value t1 then Status.exit 0 else Status.exit 1
      | _ => Status.exit 1 := by
  simp only [Ipv4Range.main, List.length_cons, List.length_nil, List.get?_cons_succ,
    List.get?_cons_zero]
  match hsp : strings.Split arg '-' with
  | [] => simp
  | [t0] => simp
  | t0 :: t1 :: rest =>
    have hlen : ¬ (rest.length + 1 + 1 < 2) := by omega
    simp only [List.length_cons, List.get?_cons_succ, List.get?_cons_zero, hlen, if_false]
    cases h0 : Spec.isDottedQuad t0 with
    | false =>
      obtain ⟨p, hp⟩ := ParseIP_error_of_not_quad t0 h0
      simp [hp]
    | true =>
      rw [(ParseIP_ok_iff t0 _).2 ⟨h0, rfl⟩]
      cases h1 : Spec.isDottedQuad t1 with
      | false =>
        obtain ⟨p, hp⟩ := ParseIP_error_of_not_quad t1 h1
        simp [hp]
      | true =>
        rw [(ParseIP_ok_iff t1 _).2 ⟨h1, rfl⟩]
        simp only [Less_AddrFrom4 _ _ (isOctets_octets t0 h0) (isOctets_octets t1 h1)]
        by_cases h : Spec.value t0 < Spec.value t1
        · have h' : Spec.toUint32 (Spec.octets t0) < Spec.toUint32 (Spec.octets t1) := h
          simp [h, h']
        · have h' : ¬ Spec.toUint32 (Spec.octets t0) < Spec.toUint32 (Spec.octets t1) := h
          simp [h, h']

/-! ## The legacy program accepts IPv6 literals -/

/-- C5: the legacy program run with the argument `::1-192.0.2.1`:
`IsIPv4` is true of the IPv6 literal `::1`, which is not a dotted-quad, and
the program exits with status 0; the netip program exits with status 1 on the
same argument. -/
theorem legacy_main_accepts_ipv6 :
    Ipv4RangeGo.IsIPv4 "::1".toList = true ∧ Spec.isDottedQuad "::1".toList = false ∧
    strings.Split "::1-192.0.2.1".toList '-' = ["::1".toList, "192.0.2.1".toList] ∧
    Ipv4RangeGo.main ["ipv4-range-go".toList, "::1-192.0.2.1".toList] = Status.exit 0 ∧
    (Ipv4Range.main ["ipv4-range".toList, "::1-192.0.2.1".toList]).status = Status.exit 1 := by
  refine ⟨?_, ?_, ?_, ?_, ?_⟩ <;> decide

/-! ## Tokens with an octet out of range -/

theorem not_isDottedQuad_of_hasOctetAbove255 (t : GoString)
    (h : Spec.hasOctetAbove255 t = true) : Spec.isDottedQuad t = false := by
  cases hq : Spec.isDottedQuad t with
  | false => rfl
  | true =>
    exfalso
    obtain ⟨g0, g1, g2, g3, rfl, h0, h1, h2, h3⟩ := (isDottedQuad_iff t).1 hq
    have l0 := isOctet_le h0
    have l1 := isOctet_le h1
    have l2 := isOctet_le h2
    have l3 := isOctet_le h3
    simp only [Spec.hasOctetAbove255, Split_quad g0 g1 g2 g3 h0 h1 h2 h3, Bool.and_eq_true,
      List.any_cons, List.any_nil, Bool.or_false, Bool.or_eq_true, decide_eq_true_eq] at h
    omega

/-- C6: when the first or the second `-`-separated token of the argument is
a dotted sequence of decimal numbers with an octet above 255, the netip
program exits with status 1, whatever the rest of the argument is. -/
theorem netip_main_octet_out_of_range (prog arg t : GoString)
    (ht : Spec.hasOctetAbove255 t = true)
    (hpos : (strings.Split arg '-').get? 0 = some t ∨ (strings.Split arg '-').get? 1 = some t) :
    (Ipv4Range.main [prog, arg]).status = Status.exit 1 := by
  have hq := not_isDottedQuad_of_hasOctetAbove255 t ht
  rw [netip_main_status]
  match hsp : strings.Split arg '-' with
  | [] => rfl
  | [t0] => rfl
  | t0 :: t1 :: rest =>
    rw [hsp] at hpos
    simp only [List.get?_cons_zero, List.get?_cons_succ, Option.some.injEq] at hpos
    rcases hpos with rfl | rfl
    · simp [hq]
    · simp [hq]

theorem netip_main_octet_out_of_range_witness :
    Spec.hasOctetAbove255 "256.1.1.1".toList = true ∧
    (strings.Split "10.0.0.1-256.1.1.1".toList '-').get? 1 = some "256.1.1.1".toList ∧
    (Ipv4Range.main ["ipv4-range".toList, "10.0.0.1-256.1.1.1".toList]).status = Status.exit 1 :=
  ⟨by decide, by decide, netip_main_octet_out_of_range "ipv4-range".toList "10.0.0.1-256.1.1.1".toList
      "256.1.1.1".toList (by decide) (Or.inr (by decide))⟩

/-! ## Arguments without delimiter, and argument counts -/

/-- C7: on a single argument that does not contain `-`, the netip program
prints that the argument must contain a range and exits with status 1, without
parsing any address, and the legacy program exits with status 1. -/
theorem main_no_delimiter (prog arg : GoString) (h : '-' ∉ arg) :
    Ipv4Range.main [prog, arg] =
      { out := [{ text := "An argument must contain an IPv4 range\n", arg := none }],
        status := Status.exit 1 } ∧
    Ipv4RangeGo.main [prog, arg] = Status.exit 1 := by
  constructor
  · simp [Ipv4Range.main, Split_of_not_mem '-' arg h]
  · have hc : strings.Contains arg '-' = false := by
      cases hc : strings.Contains arg '-' with
      | false => rfl
      | true => exact absurd ((Contains_iff arg '-').1 hc) h
    simp [Ipv4RangeGo.main, Ipv4RangeGo.mainBody, hc]

theorem main_no_delimiter_witness :
    '-' ∉ "192.0.2.1".toList ∧
    Ipv4Range.main ["ipv4-range".toList, "192.0.2.1".toList] =
      { out := [{ text := "An argument must contain an IPv4 range\n", arg := none }],
        status := Status.exit 1 } ∧
    Ipv4RangeGo.main ["ipv4-range-go".toList, "192.0.2.1".toList] = Status.exit 1 :=
  ⟨by decide, main_no_delimiter _ _ (by decide)⟩

/-- C8: when the number of positional arguments is not exactly one, the
netip program prints that there must be one argument and exits with status 1;
nothing is split or parsed. -/
theorem netip_main_arg_count (prog : GoString) (args : List GoString) (h : args.length ≠ 1) :
    Ipv4Range.main (prog :: args) =
      { out := [{ text := "There must be one argument provided\n", arg := none }],
        status := Status.exit 1 } := by
  have h2 : (prog :: args).length ≠ 2 := by
    simp only [List.length_cons]
    omega
  rw [Ipv4Range.main, if_pos h2]

theorem netip_main_arg_count_witness :
    ([] : List GoString).length ≠ 1 ∧
    Ipv4Range.main ("ipv4-range".toList :: []) =
      { out := [{ text := "There must be one argument provided\n", arg := none }],
        status := Status.exit 1 } :=
  ⟨by decide, netip_main_arg_count _ _ (by decide)⟩

/-- C9: the legacy program run without arguments: the package-level
`hosts = os.Args[1]` indexes past the end of `os.Args`, the run ends in a
panic before `main` starts, and the exit status is 2, not 1. -/
theorem legacy_main_no_args (prog : GoString) :
    Ipv4RangeGo.main [prog] = Status.panic ∧ (Ipv4RangeGo.main [prog]).code = 2 ∧
    (Ipv4RangeGo.main [prog]).code ≠ 1 ∧
    (Ipv4Range.main [prog]).status = Status.exit 1 := by
  refine ⟨rfl, rfl, ?_, rfl⟩
  show (2 : Nat) ≠ 1
  decide

/-! ## Round trip between text and integer -/

theorem appendDecimal_append (b : GoString) (x : Nat) :
    netip.appendDecimal b x = b ++ netip.appendDecimal [] x := by
  unfold netip.appendDecimal
  by_cases h1 : x ≥ 100 <;> by_cases h2 : x ≥ 10 <;> simp [h1, h2]

theorem ofNat_digit (c : Char) (n : Nat) (h : n = c.toNat) : Char.ofNat n = c := by
  rw [h, Char.ofNat_toNat]

theorem appendDecimal_one (x : Nat) (h : x < 10) :
    netip.appendDecimal [] x = [Char.ofNat (48 + x)] := by
  have h1 : ¬ x ≥ 100 := by omega
  have h2 : ¬ x ≥ 10 := by omega
  simp [netip.appendDecimal, h1, h2, Nat.mod_eq_of_lt h]

theorem appendDecimal_two (x : Nat) (h : 10 ≤ x) (h' : x < 100) :
    netip.appendDecimal [] x = [Char.ofNat (48 + x / 10), Char.ofNat (48 + x % 10)] := by
  have h1 : ¬ x ≥ 100 := by omega
  have h2 : x ≥ 10 := h
  have h3 : x / 10 % 10 = x / 10 := by omega
  simp [netip.appendDecimal, h1, h2, h3]

theorem appendDecimal_three (x : Nat) (h : 100 ≤ x) :
    netip.appendDecimal [] x =
      [Char.ofNat (48 + x / 100), Char.ofNat (48 + x / 10 % 10), Char.ofNat (48 + x % 10)] := by
  have h1 : x ≥ 100 := h
  have h2 : x ≥ 10 := by omega
  simp [netip.appendDecimal, h1, h2]

theorem toNat_ne_of_ne_zero (a : Char) (h : a ≠ '0') : a.toNat ≠ 48 :=
  fun e => h (char_eq_of_toNat_eq e)

/-- The decimal text of the value of an octet is the octet. -/
theorem appendDecimal_decVal (g : GoString) (h : Spec.isOctet g = true) :
    netip.appendDecimal [] (Spec.decVal g) = g := by
  obtain ⟨hne, hpre⟩ := (isOctet_iff g).1 h
  obtain ⟨hdig, hnz, hle⟩ := (isOctetPrefix_iff g).1 hpre
  rcases g with _ | ⟨a, _ | ⟨b, _ | ⟨c, _ | ⟨d, t⟩⟩⟩⟩
  · exact absurd rfl hne
  · have ha := (isDigit_iff a).1 (hdig a (by simp))
    have e : Spec.decVal [a] = a.toNat - 48 := by simp [Spec.decVal]
    rw [e, appendDecimal_one _ (by omega)]
    simp only [List.cons.injEq, and_true]
    exact ofNat_digit a _ (by omega)
  · have ha := (isDigit_iff a).1 (hdig a (by simp))
    have hb := (isDigit_iff b).1 (hdig b (by simp))
    have ha0 : a.toNat ≠ 48 := toNat_ne_of_ne_zero a (by simpa [Spec.noLeadingZero] using hnz)
    have e : Spec.decVal [a, b] = (a.toNat - 48) * 10 + (b.toNat - 48) := by
      simp [Spec.decVal]
    rw [e, appendDecimal_two _ (by omega) (by omega)]
    simp only [List.cons.injEq, and_true]
    exact ⟨ofNat_digit a _ (by omega), ofNat_digit b _ (by omega)⟩
  · have ha := (isDigit_iff a).1 (hdig a (by simp))
    have hb := (isDigit_iff b).1 (hdig b (by simp))
    have hc := (isDigit_iff c).1 (hdig c (by simp))
    have ha0 : a.toNat ≠ 48 := toNat_ne_of_ne_zero a (by simpa [Spec.noLeadingZero] using hnz)
    have e : Spec.decVal [a, b, c] =
        ((a.toNat - 48) * 10 + (b.toNat - 48)) * 10 + (c.toNat - 48) := by
      simp [Spec.decVal]
    rw [e, appendDecimal_three _ (by omega)]
    simp only [List.cons.injEq, and_true]
    exact ⟨ofNat_digit a _ (by omega), ofNat_digit b _ (by omega), ofNat_digit c _ (by omega)⟩
  · exfalso
    have hpre4 : Spec.isOctetPrefix [a, b, c, d] = true :=
      isOctetPrefix_of_append [a, b, c, d] t (by simpa using hpre)
    have hle4 := ((isOctetPrefix_iff _).1 hpre4).2.2
    have ha := (isDigit_iff a).1 (hdig a (by simp))
    have ha0 : a.toNat ≠ 48 := toNat_ne_of_ne_zero a (by simpa [Spec.noLeadingZero] using hnz)
    have e : Spec.decVal [a, b, c, d] =
        (((a.toNat - 48) * 10 + (b.toNat - 48)) * 10 + (c.toNat - 48)) * 10
          + (d.toNat - 48) := by
      simp [Spec.decVal]
    rw [e] at hle4
    omega

theorem As4_AddrFrom4 (o : List Nat) (h : Spec.isOctets o) : (netip.AddrFrom4 o).As4 = o := by
  have e := AddrFrom4_lo o h
  obtain ⟨a, b, c, d, rfl, ha, hb, hc, hd⟩ := h
  simp only [Spec.toUint32, List.getD_cons_zero, List.getD_cons_succ] at e
  simp only [netip.Addr.As4, e, Nat.shiftRight_eq_div_pow]
  norm_num
  refine ⟨?_, ?_, ?_, ?_⟩ <;> omega

theorem fromUint32_toUint32 (o : List Nat) (h : Spec.isOctets o) :
    Spec.fromUint32 (Spec.toUint32 o) = o := by
  obtain ⟨a, b, c, d, rfl, ha, hb, hc, hd⟩ := h
  simp only [Spec.fromUint32, Spec.toUint32, List.getD_cons_zero, List.getD_cons_succ]
  norm_num
  refine ⟨?_, ?_, ?_, ?_⟩ <;> omega

/-- The text of the IPv4 address parsed from a valid dotted-quad is the
dotted-quad. -/
theorem string4_AddrFrom4_octets (s : GoString) (h : Spec.isDottedQuad s = true) :
    (netip.AddrFrom4 (Spec.octets s)).string4 = s := by
  have ho := isOctets_octets s h
  obtain ⟨g0, g1, g2, g3, rfl, h0, h1, h2, h3⟩ := (isDottedQuad_iff s).1 h
  rw [netip.Addr.string4, As4_AddrFrom4 _ ho, octets_quad g0 g1 g2 g3 h0 h1 h2 h3]
  simp only [List.getD_cons_zero, List.getD_cons_succ]
  rw [appendDecimal_append _ (Spec.decVal g3), appendDecimal_append _ (Spec.decVal g2),
    appendDecimal_append _ (Spec.decVal g1), appendDecimal_decVal g0 h0,
    appendDecimal_decVal g1 h1, appendDecimal_decVal g2 h2, appendDecimal_decVal g3 h3]
  simp [Spec.quad]

/-- Round trip on valid dotted-quads: both programs read a valid dotted-quad
`a` as the integer `o0 * 2^24 + o1 * 2^16 + o2 * 2^8 + o3` of its octets, the
dotted-quad rebuilt from that integer is `a` itself, and every string that
`ParseIP` of the netip program accepts is the text of the address it
returns. -/
theorem dotted_quad_roundtrip (a : GoString) (h : Spec.isDottedQuad a = true) :
    Ipv4Range.ParseIP a = .ok (netip.AddrFrom4 (Spec.octets a)) ∧
    (netip.AddrFrom4 (Spec.octets a)).lo % 2 ^ 32 = Spec.value a ∧
    Ipv4RangeGo.IP4toInt (net.ParseIP a) = (Spec.value a : Int) ∧
    (netip.AddrFrom4 (Spec.fromUint32 (Spec.value a))).string4 = a ∧
    (∀ (s : GoString) (addr : netip.Addr), Ipv4Range.ParseIP s = .ok addr →
      addr.string4 = s) := by
  have ho := isOctets_octets a h
  refine ⟨(ParseIP_ok_iff a _).2 ⟨h, rfl⟩, ?_, IP4toInt_quad a h, ?_, ?_⟩
  · rw [AddrFrom4_lo _ ho]
    have hlt := toUint32_lt _ ho
    rw [Spec.value]
    omega
  · rw [Spec.value, fromUint32_toUint32 _ ho]
    exact string4_AddrFrom4_octets a h
  · intro s addr hs
    obtain ⟨hq, rfl⟩ := (ParseIP_ok_iff s addr).1 hs
    exact string4_AddrFrom4_octets s hq

theorem dotted_quad_roundtrip_witness :
    Spec.isDottedQuad "192.0.2.1".toList = true ∧
    Ipv4RangeGo.IP4toInt (net.ParseIP "192.0.2.1".toList) =
      (Spec.value "192.0.2.1".toList : Int) ∧
    (netip.AddrFrom4 (Spec.fromUint32 (Spec.value "192.0.2.1".toList))).string4 =
      "192.0.2.1".toList :=
  ⟨by decide, (dotted_quad_roundtrip "192.0.2.1".toList (by decide)).2.2.1,
    (dotted_quad_roundtrip "192.0.2.1".toList (by decide)).2.2.2.1⟩

/-- C10: the legacy program accepts a string that is not in normalized form.
`::ffff:192.0.2.1` is not a dotted-quad, yet `net.ParseIP` accepts it and
`IsIPv4` is true of it; `IP4toInt` reads it as 3221225985, the dotted-quad
rebuilt from that integer is `192.0.2.1`, which is not the input, and the
legacy program exits with status 0 on `::ffff:192.0.2.1-::ffff:192.0.2.2`.
`ParseIP` of the netip program rejects the same string, and the netip program
exits with status 1 on the same argument. -/
theorem legacy_accepts_unnormalized :
    Spec.isDottedQuad "::ffff:192.0.2.1".toList = false ∧
    net.ParseIP "::ffff:192.0.2.1".toList =
      some [0, 0, 0, 0, 0, 0, 0, 0, 0, 0, 255, 255, 192, 0, 2, 1] ∧
    Ipv4RangeGo.IsIPv4 "::ffff:192.0.2.1".toList = true ∧
    Ipv4RangeGo.IP4toInt (net.ParseIP "::ffff:192.0.2.1".toList) = 3221225985 ∧
    (netip.AddrFrom4 (Spec.fromUint32 3221225985)).string4 = "192.0.2.1".toList ∧
    (netip.AddrFrom4 (Spec.fromUint32 3221225985)).string4 ≠ "::ffff:192.0.2.1".toList ∧
    Ipv4RangeGo.main ["ipv4-range-go".toList, "::ffff:192.0.2.1-::ffff:192.0.2.2".toList] =
      Status.exit 0 ∧
    (∃ p, Ipv4Range.ParseIP "::ffff:192.0.2.1".toList = .error p) ∧
    (Ipv4Range.main ["ipv4-range".toList, "::ffff:192.0.2.1-::ffff:192.0.2.2".toList]).status =
      Status.exit 1 := by
  refine ⟨by decide, by decide, by decide, by decide, by decide, by decide, by decide,
    ⟨_, rfl⟩, by decide⟩

/-! ## `IP4toInt` -/

theorem beValue_lt (bs : List Nat) : netip.beValue bs < 256 ^ bs.length := by
  have h : ∀ (bs : List Nat) (acc n : Nat), acc < 256 ^ n →
      bs.foldl (fun acc b => acc * 256 + b % 256) acc < 256 ^ (n + bs.length) := by
    intro bs
    induction bs with
    | nil => intro acc n h; simpa using h
    | cons b bs ih =>
      intro acc n h
      rw [List.foldl_cons, List.length_cons, ← Nat.add_assoc, Nat.add_right_comm]
      apply ih
      have hb : b % 256 < 256 := Nat.mod_lt _ (by decide)
      rw [pow_succ]
      omega
  have := h bs 0 0 (by decide)
  simpa [netip.beValue] using this

theorem To4_length (ip : net.IP) (b : List Nat) (h : net.IP.To4 ip = some b) : b.length = 4 := by
  unfold net.IP.To4 at h
  split at h
  · cases h
  · rename_i b0
    split at h
    · rename_i h4
      simp only [Option.some.injEq] at h
      rw [← h]
      exact h4
    · split at h
      · rename_i h16
        simp only [Option.some.injEq] at h
        rw [← h]
        simp only [List.length_take, List.length_drop]
        omega
      · cases h

theorem SetBytes_To4_lt (ip : net.IP) : big.SetBytes (net.IP.To4 ip) < 2 ^ 32 := by
  cases h : net.IP.To4 ip with
  | none => simp [big.SetBytes]
  | some b =>
    have hl := To4_length ip b h
    have hb := beValue_lt b
    rw [hl] at hb
    simp only [big.SetBytes]
    norm_num at hb ⊢
    exact hb

theorem Int64_of_lt (x : Nat) (h : x < 2 ^ 32) : big.Int64 x = (x : Int) := by
  have hm : x % 2 ^ 64 = x := Nat.mod_eq_of_lt (by omega)
  simp only [big.Int64, hm]
  rw [if_pos (by omega)]

theorem IP4toInt_eq (ip : net.IP) :
    Ipv4RangeGo.IP4toInt ip = ((big.SetBytes (net.IP.To4 ip) : Nat) : Int) := by
  rw [Ipv4RangeGo.IP4toInt, Int64_of_lt _ (SetBytes_To4_lt ip)]

/-- C11: for octets `o0 o1 o2 o3`, `IP4toInt` of the address (as 4 bytes, or
as the 16 bytes of the IPv4-mapped form that `net.ParseIP` returns) is
`o0 * 2^24 + o1 * 2^16 + o2 * 2^8 + o3`, and for every input, `nil` included,
the result lies in `[0, 2^32)`. -/
theorem IP4toInt_value_and_range :
    (∀ o0 o1 o2 o3 : Nat, o0 < 256 → o1 < 256 → o2 < 256 → o3 < 256 →
      Ipv4RangeGo.IP4toInt (some [o0, o1, o2, o3]) =
        ((o0 * 2 ^ 24 + o1 * 2 ^ 16 + o2 * 2 ^ 8 + o3 : Nat) : Int) ∧
      Ipv4RangeGo.IP4toInt (some [0, 0, 0, 0, 0, 0, 0, 0, 0, 0, 255, 255, o0, o1, o2, o3]) =
        ((o0 * 2 ^ 24 + o1 * 2 ^ 16 + o2 * 2 ^ 8 + o3 : Nat) : Int)) ∧
    (∀ ip : net.IP, 0 ≤ Ipv4RangeGo.IP4toInt ip ∧ Ipv4RangeGo.IP4toInt ip < 2 ^ 32) ∧
    Ipv4RangeGo.IP4toInt none = 0 := by
  refine ⟨?_, ?_, rfl⟩
  · intro o0 o1 o2 o3 h0 h1 h2 h3
    have e4 : net.IP.To4 (some [o0, o1, o2, o3]) = some [o0, o1, o2, o3] := by
      simp [net.IP.To4]
    have e16 : net.IP.To4 (some [0, 0, 0, 0, 0, 0, 0, 0, 0, 0, 255, 255, o0, o1, o2, o3]) =
        some [o0, o1, o2, o3] := by
      simp [net.IP.To4]
    have ev := beValue_four o0 o1 o2 o3 h0 h1 h2 h3
    simp only [Spec.toUint32, List.getD_cons_zero, List.getD_cons_succ] at ev
    rw [IP4toInt_eq, IP4toInt_eq, e4, e16]
    simp only [big.SetBytes, ev, and_self]
  · intro ip
    rw [IP4toInt_eq]
    have h := SetBytes_To4_lt ip
    constructor
    · exact Int.natCast_nonneg _
    · exact_mod_cast h

theorem IP4toInt_value_and_range_witness :
    Ipv4RangeGo.IP4toInt (some [192, 0, 2, 1]) =
      ((192 * 2 ^ 24 + 0 * 2 ^ 16 + 2 * 2 ^ 8 + 1 : Nat) : Int) ∧
    Ipv4RangeGo.IP4toInt (some [0, 0, 0, 0, 0, 0, 0, 0, 0, 0, 255, 255, 192, 0, 2, 1]) =
      ((192 * 2 ^ 24 + 0 * 2 ^ 16 + 2 * 2 ^ 8 + 1 : Nat) : Int) :=
  IP4toInt_value_and_range.1 192 0 2 1 (by decide) (by decide) (by decide) (by decide)

/-! ## The three orders -/

theorem lexLt_octets (x y : List Nat) (hx : Spec.isOctets x) (hy : Spec.isOctets y) :
    Spec.lexLt x y = decide (Spec.toUint32 x < Spec.toUint32 y) := by
  obtain ⟨a, b, c, d, rfl, ha, hb, hc, hd⟩ := hx
  obtain ⟨a', b', c', d', rfl, ha', hb', hc', hd'⟩ := hy
  simp only [Spec.lexLt, Spec.toUint32, List.getD_cons_zero, List.getD_cons_succ]
  split_ifs <;> simp <;> omega

/-- C12: for valid dotted-quads `a` and `b` the three orders coincide: the
lexicographic order of the octet tuples, the order of the integers
`IP4toInt` of the legacy program, and `Less` on the addresses that `ParseIP`
of the netip program returns; all three are the order of the 32-bit
values. -/
theorem ordering_agreement (a b : GoString)
    (ha : Spec.isDottedQuad a = true) (hb : Spec.isDottedQuad b = true) :
    ∃ x y, Ipv4Range.ParseIP a = .ok x ∧ Ipv4Range.ParseIP b = .ok y ∧
      x.Less y = Spec.lexLt (Spec.octets a) (Spec.octets b) ∧
      Spec.lexLt (Spec.octets a) (Spec.octets b) =
        decide (Ipv4RangeGo.IP4toInt (net.ParseIP a) < Ipv4RangeGo.IP4toInt (net.ParseIP b)) ∧
      (Ipv4RangeGo.IP4toInt (net.ParseIP a) < Ipv4RangeGo.IP4toInt (net.ParseIP b) ↔
        Spec.value a < Spec.value b) := by
  have oa := isOctets_octets a ha
  have ob := isOctets_octets b hb
  refine ⟨_, _, (ParseIP_ok_iff a _).2 ⟨ha, rfl⟩, (ParseIP_ok_iff b _).2 ⟨hb, rfl⟩, ?_, ?_, ?_⟩
  · rw [Less_AddrFrom4 _ _ oa ob, lexLt_octets _ _ oa ob]
  · rw [lexLt_octets _ _ oa ob, IP4toInt_quad a ha, IP4toInt_quad b hb]
    simp only [Spec.value, Nat.cast_lt]
  · rw [IP4toInt_quad a ha, IP4toInt_quad b hb]
    exact Nat.cast_lt

theorem ordering_agreement_witness :
    Spec.isDottedQuad "10.0.1.0".toList = true ∧ Spec.isDottedQuad "10.0.0.255".toList = true ∧
    ∃ x y, Ipv4Range.ParseIP "10.0.1.0".toList = .ok x ∧
      Ipv4Range.ParseIP "10.0.0.255".toList = .ok y ∧
      x.Less y = Spec.lexLt (Spec.octets "10.0.1.0".toList) (Spec.octets "10.0.0.255".toList) ∧
      Spec.lexLt (Spec.octets "10.0.1.0".toList) (Spec.octets "10.0.0.255".toList) =
        decide (Ipv4RangeGo.IP4toInt (net.ParseIP "10.0.1.0".toList)
          < Ipv4RangeGo.IP4toInt (net.ParseIP "10.0.0.255".toList)) ∧
      (Ipv4RangeGo.IP4toInt (net.ParseIP "10.0.1.0".toList)
          < Ipv4RangeGo.IP4toInt (net.ParseIP "10.0.0.255".toList) ↔
        Spec.value "10.0.1.0".toList < Spec.value "10.0.0.255".toList) :=
  ⟨by decide, by decide, ordering_agreement _ _ (by decide) (by decide)⟩

/-! ## The legacy program on any single argument -/

theorem splitLoop_length_of_mem (sep : Char) :
    ∀ (s cur : GoString), sep ∈ s → 2 ≤ (strings.splitLoop sep cur s).length := by
  intro s
  induction s with
  | nil => intro cur h; cases h
  | cons c s ih =>
    intro cur h
    rw [strings.splitLoop]
    by_cases hc : c = sep
    · rw [if_pos hc, List.length_cons]
      have := List.length_pos.2 (splitLoop_ne_nil sep s [])
      omega
    · rw [if_neg hc]
      apply ih
      rcases List.mem_cons.1 h with h | h
      · exact absurd h.symm hc
      · exact h

theorem Split_length_of_mem (s : GoString) (sep : Char) (h : sep ∈ s) :
    2 ≤ (strings.Split s sep).length :=
  splitLoop_length_of_mem sep s [] h

theorem hostsLoop_iff (l : List GoString) :
    Ipv4RangeGo.hostsLoop l = true ↔ ∀ t ∈ l, net.ParseIP t ≠ none := by
  induction l with
  | nil => simp [Ipv4RangeGo.hostsLoop]
  | cons t l ih =>
    rw [Ipv4RangeGo.hostsLoop]
    by_cases ht : net.ParseIP t = none
    · simp [Ipv4RangeGo.IsIPv4, ht]
    · simp [Ipv4RangeGo.IsIPv4, ht, ih]

/-- The exit status of the legacy program on one argument: 0 when the
argument has at least two tokens, the integer of the first is below the
integer of the second and `net.ParseIP` accepts every token; 1 otherwise. -/
theorem legacy_mainBody_status (hosts : GoString) :
    Ipv4RangeGo.mainBody hosts =
      match strings.Split hosts '-' with
      | t0 :: t1 :: rest =>
        if Ipv4RangeGo.IP4toInt (net.ParseIP t0) < Ipv4RangeGo.IP4toInt (net.ParseIP t1)
            ∧ Ipv4RangeGo.hostsLoop (t0 :: t1 :: rest) = true
        then Status.exit 0 else Status.exit 1
      | _ => Status.exit 1 := by
  by_cases hd : '-' ∈ hosts
  · have hc : strings.Contains hosts '-' = true := (Contains_iff hosts '-').2 hd
    have hl := Split_length_of_mem hosts '-' hd
    match hsp : strings.Split hosts '-' with
    | [] => rw [hsp] at hl; simp at hl
    | [t0] => rw [hsp] at hl; simp at hl
    | t0 :: t1 :: rest =>
      simp only [Ipv4RangeGo.mainBody, hc, hsp, List.get?_cons_zero, List.get?_cons_succ]
      by_cases hlt : Ipv4RangeGo.IP4toInt (net.ParseIP t0) < Ipv4RangeGo.IP4toInt (net.ParseIP t1)
      · have hge : ¬ (Ipv4RangeGo.IP4toInt (net.ParseIP t0)
            ≥ Ipv4RangeGo.IP4toInt (net.ParseIP t1)) := by omega
        by_cases hh : Ipv4RangeGo.hostsLoop (t0 :: t1 :: rest) = true
        · simp [hlt, hge, hh]
        · simp [hlt, hge, hh]
      · have hge : Ipv4RangeGo.IP4toInt (net.ParseIP t0)
            ≥ Ipv4RangeGo.IP4toInt (net.ParseIP t1) := by omega
        simp [hlt, hge]
  · have hc : strings.Contains hosts '-' = false := by
      cases hc : strings.Contains hosts '-' with
      | false => rfl
      | true => exact absurd ((Contains_iff hosts '-').1 hc) hd
    rw [Split_of_not_mem '-' hosts hd]
    simp [Ipv4RangeGo.mainBody, hc]

theorem legacy_main_single (prog arg : GoString) (rest : List GoString) :
    Ipv4RangeGo.main (prog :: arg :: rest) = Ipv4RangeGo.mainBody arg := rfl

theorem net_ParseIP_ne_none_of_quad (t : GoString) (h : Spec.isDottedQuad t = true) :
    net.ParseIP t ≠ none := by
  rw [net_ParseIP_quad t h]
  simp

/-! ## The two programs compared -/

/-- C13, counterexample: the two programs do not exit with the same status
on every single argument.  On `192.0.2.1-192.0.2.10-x` the legacy program
exits 1 and the netip program 0; on `::1-192.0.2.1` the legacy program exits
0 and the netip program 1. -/
theorem programs_differ :
    (Ipv4RangeGo.main ["p".toList, "192.0.2.1-192.0.2.10-x".toList] = Status.exit 1 ∧
      (Ipv4Range.main ["p".toList, "192.0.2.1-192.0.2.10-x".toList]).status = Status.exit 0) ∧
    (Ipv4RangeGo.main ["p".toList, "::1-192.0.2.1".toList] = Status.exit 0 ∧
      (Ipv4Range.main ["p".toList, "::1-192.0.2.1".toList]).status = Status.exit 1) ∧
    ¬ (∀ prog arg : GoString,
        Ipv4RangeGo.main [prog, arg] = (Ipv4Range.main [prog, arg]).status) := by
  refine ⟨⟨by decide, by decide⟩, ⟨by decide, by decide⟩, ?_⟩
  intro h
  have h1 := h "p".toList "192.0.2.1-192.0.2.10-x".toList
  revert h1
  decide

/-- C13, amended: on a single argument none of whose tokens is an IPv6
literal (a token that `net.ParseIP` accepts although it is not a dotted-quad),
the legacy program exits 0 exactly when the netip program exits 0 and every
token after the second is a valid dotted-quad, and exits 1 otherwise; so on
such an argument of at most two tokens the two programs exit with the same
status. -/
theorem programs_agree (prog arg : GoString)
    (h6 : ∀ t ∈ strings.Split arg '-', net.ParseIP t ≠ none → Spec.isDottedQuad t = true) :
    Ipv4RangeGo.main [prog, arg] =
      (if (Ipv4Range.main [prog, arg]).status = Status.exit 0
          ∧ ∀ t ∈ (strings.Split arg '-').drop 2, Spec.isDottedQuad t = true
        then Status.exit 0 else Status.exit 1) ∧
    ((strings.Split arg '-').length ≤ 2 →
      Ipv4RangeGo.main [prog, arg] = (Ipv4Range.main [prog, arg]).status) := by
  rw [legacy_main_single, legacy_mainBody_status, netip_main_status]
  match hsp : strings.Split arg '-' with
  | [] => simp
  | [t0] => simp
  | t0 :: t1 :: rest =>
    rw [hsp] at h6
    simp only [List.drop_succ_cons, List.drop_zero, List.length_cons]
    have key : (Ipv4RangeGo.IP4toInt (net.ParseIP t0) < Ipv4RangeGo.IP4toInt (net.ParseIP t1)
          ∧ Ipv4RangeGo.hostsLoop (t0 :: t1 :: rest) = true) ↔
        ((Spec.isDottedQuad t0 = true ∧ Spec.isDottedQuad t1 = true
            ∧ Spec.value t0 < Spec.value t1)
          ∧ ∀ t ∈ rest, Spec.isDottedQuad t = true) := by
      rw [hostsLoop_iff]
      constructor
      · rintro ⟨hlt, hall⟩
        have q0 := h6 t0 (by simp) (hall t0 (by simp))
        have q1 := h6 t1 (by simp) (hall t1 (by simp))
        rw [IP4toInt_quad t0 q0, IP4toInt_quad t1 q1] at hlt
        refine ⟨⟨q0, q1, by exact_mod_cast hlt⟩, ?_⟩
        intro t ht
        exact h6 t (by simp [ht]) (hall t (by simp [ht]))
      · rintro ⟨⟨q0, q1, hlt⟩, hall⟩
        rw [IP4toInt_quad t0 q0, IP4toInt_quad t1 q1]
        refine ⟨by exact_mod_cast hlt, ?_⟩
        intro t ht
        rcases List.mem_cons.1 ht with rfl | ht
        · exact net_ParseIP_ne_none_of_quad _ q0
        rcases List.mem_cons.1 ht with rfl | ht
        · exact net_ParseIP_ne_none_of_quad _ q1
        · exact net_ParseIP_ne_none_of_quad _ (hall t ht)
    by_cases hn : Spec.isDottedQuad t0 = true ∧ Spec.isDottedQuad t1 = true
        ∧ Spec.value t0 < Spec.value t1
    · by_cases hr : ∀ t ∈ rest, Spec.isDottedQuad t = true
      · have hk := key.2 ⟨hn, hr⟩
        simp only [if_pos hk, if_pos hn, true_and, if_pos hr, implies_true, and_self]
      · have hk : ¬ (Ipv4RangeGo.IP4toInt (net.ParseIP t0)
            < Ipv4RangeGo.IP4toInt (net.ParseIP t1)
            ∧ Ipv4RangeGo.hostsLoop (t0 :: t1 :: rest) = true) := fun h => hr (key.1 h).2
        simp only [if_neg hk, if_pos hn, true_and, if_neg hr, true_and]
        intro hlen
        have : rest = [] := List.length_eq_zero.1 (by omega)
        subst this
        exact absurd (by simp) hr
    · have hk : ¬ (Ipv4RangeGo.IP4toInt (net.ParseIP t0)
          < Ipv4RangeGo.IP4toInt (net.ParseIP t1)
          ∧ Ipv4RangeGo.hostsLoop (t0 :: t1 :: rest) = true) := fun h => hn (key.1 h).1
      have hne : ¬ (Status.exit 1 = Status.exit 0) := by decide
      simp only [if_neg hk, if_neg hn, hne, false_and, if_false, implies_true, and_self]

theorem programs_agree_witness :
    (∀ t ∈ strings.Split "192.0.2.1-192.0.2.10-x".toList '-',
      net.ParseIP t ≠ none → Spec.isDottedQuad t = true) ∧
    Ipv4RangeGo.main ["p".toList, "192.0.2.1-192.0.2.10-x".toList] =
      (if (Ipv4Range.main ["p".toList, "192.0.2.1-192.0.2.10-x".toList]).status = Status.exit 0
          ∧ ∀ t ∈ (strings.Split "192.0.2.1-192.0.2.10-x".toList '-').drop 2,
              Spec.isDottedQuad t = true
        then Status.exit 0 else Status.exit 1) :=
  ⟨by decide,
    (programs_agree "p".toList "192.0.2.1-192.0.2.10-x".toList (by decide)).1⟩

/-! ## Tokens after the second -/

theorem Split_triple (a b s : GoString) (ha : '-' ∉ a) (hb : '-' ∉ b) :
    strings.Split (a ++ ['-'] ++ b ++ ['-'] ++ s) '-' = a :: b :: strings.Split s '-' := by
  have e : a ++ ['-'] ++ b ++ ['-'] ++ s = a ++ '-' :: (b ++ '-' :: s) := by simp
  rw [e, Split_append_sep _ _ _ ha, Split_append_sep _ _ _ hb]

/-- C14: the netip program reads only the first two tokens: for valid
dotted-quads `a`, `b` and any string `s`, its exit status on `a-b-s` is its
exit status on `a-b`. -/
theorem netip_main_ignores_extra_tokens (prog a b s : GoString)
    (ha : Spec.isDottedQuad a = true) (hb : Spec.isDottedQuad b = true) :
    (Ipv4Range.main [prog, a ++ ['-'] ++ b ++ ['-'] ++ s]).status =
      (Ipv4Range.main [prog, a ++ ['-'] ++ b]).status := by
  have na := dash_not_mem_of_isDottedQuad a ha
  have nb := dash_not_mem_of_isDottedQuad b hb
  rw [netip_main_status, netip_main_status, Split_triple a b s na nb, Split_pair a b na nb]

theorem netip_main_ignores_extra_tokens_witness :
    Spec.isDottedQuad "192.0.2.1".toList = true ∧ Spec.isDottedQuad "192.0.2.10".toList = true ∧
    (Ipv4Range.main ["p".toList,
        "192.0.2.1".toList ++ ['-'] ++ "192.0.2.10".toList ++ ['-'] ++ "no-address".toList]).status =
      (Ipv4Range.main ["p".toList, "192.0.2.1".toList ++ ['-'] ++ "192.0.2.10".toList]).status :=
  ⟨by decide, by decide, netip_main_ignores_extra_tokens _ _ _ _ (by decide) (by decide)⟩

/-- C15, counterexample: the argument `192.0.2.1-192.0.2.10-192.0.2.20`
splits into three tokens and the legacy program exits with status 0 on it. -/
theorem legacy_accepts_three_tokens :
    (strings.Split "192.0.2.1-192.0.2.10-192.0.2.20".toList '-').length = 3 ∧
    Ipv4RangeGo.main ["p".toList, "192.0.2.1-192.0.2.10-192.0.2.20".toList] = Status.exit 0 := by
  constructor <;> decide

/-- C15, amended: on a single argument of three or more tokens the legacy
program exits with status 1 exactly when `net.ParseIP` rejects one of the
tokens (wherever it stands) or the integer of the first token is not below
the integer of the second; otherwise it exits with status 0. -/
theorem legacy_main_three_tokens (prog arg t0 t1 t2 : GoString) (rest : List GoString)
    (h : strings.Split arg '-' = t0 :: t1 :: t2 :: rest) :
    (Ipv4RangeGo.main [prog, arg] = Status.exit 1 ↔
      ((∃ t ∈ strings.Split arg '-', net.ParseIP t = none) ∨
        Ipv4RangeGo.IP4toInt (net.ParseIP t1) ≤ Ipv4RangeGo.IP4toInt (net.ParseIP t0))) ∧
    (Ipv4RangeGo.main [prog, arg] = Status.exit 1 ∨
      Ipv4RangeGo.main [prog, arg] = Status.exit 0) := by
  rw [legacy_main_single, legacy_mainBody_status, h]
  simp only
  by_cases hc : Ipv4RangeGo.IP4toInt (net.ParseIP t0) < Ipv4RangeGo.IP4toInt (net.ParseIP t1)
      ∧ Ipv4RangeGo.hostsLoop (t0 :: t1 :: t2 :: rest) = true
  · rw [if_pos hc]
    refine ⟨?_, Or.inr rfl⟩
    constructor
    · intro h0
      cases h0
    · rintro (⟨t, ht, hn⟩ | hle)
      · exact absurd hn ((hostsLoop_iff _).1 hc.2 t ht)
      · omega
  · rw [if_neg hc]
    refine ⟨?_, Or.inl rfl⟩
    constructor
    · intro _
      by_cases hlt : Ipv4RangeGo.IP4toInt (net.ParseIP t0)
          < Ipv4RangeGo.IP4toInt (net.ParseIP t1)
      · left
        have hh : ¬ (∀ t ∈ t0 :: t1 :: t2 :: rest, net.ParseIP t ≠ none) :=
          fun hall => hc ⟨hlt, (hostsLoop_iff _).2 hall⟩
        push_neg at hh
        exact hh
      · right
        omega
    · intro _
      rfl

theorem legacy_main_three_tokens_witness :
    strings.Split "192.0.2.1-192.0.2.10-x".toList '-' =
      "192.0.2.1".toList :: "192.0.2.10".toList :: "x".toList :: [] ∧
    (Ipv4RangeGo.main ["p".toList, "192.0.2.1-192.0.2.10-x".toList] = Status.exit 1 ↔
      ((∃ t ∈ strings.Split "192.0.2.1-192.0.2.10-x".toList '-', net.ParseIP t = none) ∨
        Ipv4RangeGo.IP4toInt (net.ParseIP "192.0.2.10".toList)
          ≤ Ipv4RangeGo.IP4toInt (net.ParseIP "192.0.2.1".toList))) :=
  ⟨by decide,
    (legacy_main_three_tokens "p".toList "192.0.2.1-192.0.2.10-x".toList
      "192.0.2.1".toList "192.0.2.10".toList "x".toList [] (by decide)).1⟩

/-! ## Diagnostics of the netip program -/

theorem ParseIP_error_text (s : GoString) (p : Printed) (h : Ipv4Range.ParseIP s = .error p) :
    (p.text != "") = true := by
  unfold Ipv4Range.ParseIP at h
  split at h
  · simp only [Except.error.injEq] at h
    rw [← h]
    show ("The argument cannot be parsed as an IP address: %s" != "") = true
    decide
  · split at h
    · simp only [Except.error.injEq] at h
      rw [← h]
      show ("The address is not an IPv4: %s" != "") = true
      decide
    · cases h

/-- C16: on a single argument with which the netip program exits 1, a
non-empty message is written exactly when the delimiter is missing or the
first or the second token is not a valid IPv4 dotted-quad; when both tokens
are valid and the first is not below the second, the program exits 1 and
writes nothing. -/
theorem netip_main_diagnostics (prog arg : GoString)
    (h1 : (Ipv4Range.main [prog, arg]).status = Status.exit 1) :
    (Spec.wroteMessage (Ipv4Range.main [prog, arg]) = true ↔
      ('-' ∉ arg ∨
        (∃ t, (strings.Split arg '-').get? 0 = some t ∧ Spec.isDottedQuad t = false) ∨
        (∃ t, (strings.Split arg '-').get? 1 = some t ∧ Spec.isDottedQuad t = false))) ∧
    (∀ t0 t1 rest, strings.Split arg '-' = t0 :: t1 :: rest →
      Spec.isDottedQuad t0 = true → Spec.isDottedQuad t1 = true →
      Ipv4Range.main [prog, arg] = { out := [], status := Status.exit 1 }) := by
  by_cases hd : '-' ∈ arg
  · have hl := Split_length_of_mem arg '-' hd
    match hsp : strings.Split arg '-' with
    | [] => rw [hsp] at hl; simp at hl
    | [t0] => rw [hsp] at hl; simp at hl
    | t0 :: t1 :: rest =>
      have hlen : ¬ (rest.length + 1 + 1 < 2) := by omega
      have hm : Ipv4Range.main [prog, arg] =
          match Ipv4Range.ParseIP t0 with
          | .error p => { out := [p], status := Status.exit 1 }
          | .ok ip_first =>
            match Ipv4Range.ParseIP t1 with
            | .error p => { out := [p], status := Status.exit 1 }
            | .ok ip_second =>
              if (!ip_first.Less ip_second) = true then { out := [], status := Status.exit 1 }
              else { out := [], status := Status.exit 0 } := by
        simp only [Ipv4Range.main, List.length_cons, List.length_nil, List.get?_cons_succ,
          List.get?_cons_zero, hsp, hlen]
        simp
      rw [hm] at h1 ⊢
      simp only [List.get?_cons_zero, List.get?_cons_succ, Option.some.injEq, exists_eq_left']
      cases h0 : Spec.isDottedQuad t0 with
      | false =>
        obtain ⟨p, hp⟩ := ParseIP_error_of_not_quad t0 h0
        have ht := ParseIP_error_text t0 p hp
        simp only [hp]
        refine ⟨?_, ?_⟩
        · simp [Spec.wroteMessage, ht]
        · intro a b c hab
          simp only [List.cons.injEq] at hab
          intro ha
          rw [← hab.1, h0] at ha
          cases ha
      | true =>
        have e0 := (ParseIP_ok_iff t0 _).2 ⟨h0, rfl⟩
        cases hq1 : Spec.isDottedQuad t1 with
        | false =>
          obtain ⟨p, hp⟩ := ParseIP_error_of_not_quad t1 hq1
          have ht := ParseIP_error_text t1 p hp
          simp only [e0, hp]
          refine ⟨?_, ?_⟩
          · simp [Spec.wroteMessage, ht]
          · intro a b c hab
            simp only [List.cons.injEq] at hab
            intro _ hb
            rw [← hab.2.1, hq1] at hb
            cases hb
        | true =>
          have e1 := (ParseIP_ok_iff t1 _).2 ⟨hq1, rfl⟩
          simp only [e0, e1] at h1 ⊢
          by_cases hless : (!(netip.AddrFrom4 (Spec.octets t0)).Less
              (netip.AddrFrom4 (Spec.octets t1))) = true
          · simp only [if_pos hless]
            refine ⟨?_, ?_⟩
            · simp [Spec.wroteMessage, hd]
            · intro _ _ _ _ _ _
              trivial
          · rw [if_neg hless] at h1
            cases h1
  · have hm : Ipv4Range.main [prog, arg] =
        { out := [{ text := "An argument must contain an IPv4 range\n", arg := none }],
          status := Status.exit 1 } := by
      simp [Ipv4Range.main, Split_of_not_mem '-' arg hd]
    rw [hm, Split_of_not_mem '-' arg hd]
    refine ⟨?_, ?_⟩
    · constructor
      · intro _
        exact Or.inl hd
      · intro _
        decide
    · intro a b c hab
      cases hab

theorem netip_main_diagnostics_witness :
    (Ipv4Range.main ["p".toList, "192.0.2.10-192.0.2.1".toList]).status = Status.exit 1 ∧
    Spec.wroteMessage (Ipv4Range.main ["p".toList, "192.0.2.10-192.0.2.1".toList]) = false ∧
    Ipv4Range.main ["p".toList, "192.0.2.10-192.0.2.1".toList] =
      { out := [], status := Status.exit 1 } :=
  ⟨by decide, by decide,
    (netip_main_diagnostics "p".toList "192.0.2.10-192.0.2.1".toList (by decide)).2
      "192.0.2.10".toList "192.0.2.1".toList [] (by decide) (by decide) (by decide)⟩

/-! ## Check order and panic freedom of the legacy program -/

/-- C17: the legacy program compares the integers before it validates the
tokens, and a token that `net.ParseIP` rejects counts as the integer 0; all
the same, on a single argument one of whose tokens `net.ParseIP` rejects it
exits with status 1, and it exits with status 0 only when `net.ParseIP`
accepts every token and the integer of the first token is below the integer
of the second. -/
theorem legacy_main_check_order (prog arg : GoString) :
    ((∃ t ∈ strings.Split arg '-', net.ParseIP t = none) →
      Ipv4RangeGo.main [prog, arg] = Status.exit 1) ∧
    (Ipv4RangeGo.main [prog, arg] = Status.exit 0 →
      (∀ t ∈ strings.Split arg '-', net.ParseIP t ≠ none) ∧
      ∃ t0 t1 rest, strings.Split arg '-' = t0 :: t1 :: rest ∧
        Ipv4RangeGo.IP4toInt (net.ParseIP t0) < Ipv4RangeGo.IP4toInt (net.ParseIP t1)) ∧
    (∀ t, net.ParseIP t = none → Ipv4RangeGo.IP4toInt (net.ParseIP t) = 0) := by
  rw [legacy_main_single, legacy_mainBody_status]
  refine ⟨?_, ?_, ?_⟩
  · rintro ⟨t, ht, hn⟩
    match hsp : strings.Split arg '-' with
    | [] => rfl
    | [t0] => rfl
    | t0 :: t1 :: rest =>
      rw [hsp] at ht
      have hc : ¬ (Ipv4RangeGo.IP4toInt (net.ParseIP t0)
          < Ipv4RangeGo.IP4toInt (net.ParseIP t1)
          ∧ Ipv4RangeGo.hostsLoop (t0 :: t1 :: rest) = true) :=
        fun h => (hostsLoop_iff _).1 h.2 t ht hn
      simp only [if_neg hc]
  · intro h0
    match hsp : strings.Split arg '-' with
    | [] => rw [hsp] at h0; cases h0
    | [t0] => rw [hsp] at h0; cases h0
    | t0 :: t1 :: rest =>
      rw [hsp] at h0
      simp only at h0
      by_cases hc : Ipv4RangeGo.IP4toInt (net.ParseIP t0)
          < Ipv4RangeGo.IP4toInt (net.ParseIP t1)
          ∧ Ipv4RangeGo.hostsLoop (t0 :: t1 :: rest) = true
      · exact ⟨(hostsLoop_iff _).1 hc.2, t0, t1, rest, rfl, hc.1⟩
      · rw [if_neg hc] at h0
        cases h0
  · intro t ht
    rw [ht]
    rfl

theorem legacy_main_check_order_witness :
    (∃ t ∈ strings.Split "bad-192.0.2.1".toList '-', net.ParseIP t = none) ∧
    Ipv4RangeGo.IP4toInt (net.ParseIP "bad".toList)
      < Ipv4RangeGo.IP4toInt (net.ParseIP "192.0.2.1".toList) ∧
    Ipv4RangeGo.main ["p".toList, "bad-192.0.2.1".toList] = Status.exit 1 :=
  ⟨by decide, by decide,
    (legacy_main_check_order "p".toList "bad-192.0.2.1".toList).1 (by decide)⟩

/-- C18: with at least one positional argument the legacy program ends by
`os.Exit(1)` or by returning from `main` (status 0), never by a panic: when
the argument contains `-` the split has at least two elements, so `lines[1]`
is in bounds, and `IP4toInt` of the `nil` of a failed `net.ParseIP` is 0. -/
theorem legacy_main_panic_free (prog arg : GoString) (rest : List GoString) :
    (Ipv4RangeGo.main (prog :: arg :: rest) = Status.exit 0 ∨
      Ipv4RangeGo.main (prog :: arg :: rest) = Status.exit 1) ∧
    Ipv4RangeGo.main (prog :: arg :: rest) ≠ Status.panic ∧
    ('-' ∈ arg → ∃ second, (strings.Split arg '-').get? 1 = some second) ∧
    Ipv4RangeGo.IP4toInt none = 0 := by
  have hcases : Ipv4RangeGo.main (prog :: arg :: rest) = Status.exit 0 ∨
      Ipv4RangeGo.main (prog :: arg :: rest) = Status.exit 1 := by
    rw [legacy_main_single, legacy_mainBody_status]
    split
    · split
      · exact Or.inl rfl
      · exact Or.inr rfl
    · exact Or.inr rfl
  refine ⟨hcases, ?_, ?_, rfl⟩
  · rcases hcases with h | h <;> rw [h] <;> decide
  · intro hd
    have hl := Split_length_of_mem arg '-' hd
    match hsp : strings.Split arg '-' with
    | [] => rw [hsp] at hl; simp at hl
    | [t0] => rw [hsp] at hl; simp at hl
    | t0 :: t1 :: more => exact ⟨t1, rfl⟩

theorem legacy_main_panic_free_witness :
    '-' ∈ "192.0.2.1-".toList ∧
    (∃ second, (strings.Split "192.0.2.1-".toList '-').get? 1 = some second) ∧
    Ipv4RangeGo.main ["p".toList, "192.0.2.1-".toList, "extra".toList] = Status.exit 1 :=
  ⟨by decide,
    (legacy_main_panic_free "p".toList "192.0.2.1-".toList ["extra".toList]).2.2.1 (by decide),
    by decide⟩
